import Mathlib

/-!
# The `mongodb_db_index` resource of terraform-provider-mongodb

A shallow embedding of `mongodb/resource_db_index.go`: the four lifecycle
operations of the index resource (create, read, update, delete), the key loop
of `createIndex` and the identity helper `resourceDatabaseIndexParseId`.

Conventions of the embedding

* A Go function with several results is a function into a tuple; an `error`
  result is an `Option String` holding the error text (`none` is `nil`).
* `diag.Diagnostics` is represented by the summary of its single error.
* The MongoDB driver and server are an environment `Env`: every remote call
  is answered by a function of the calls issued so far, and every operation
  returns the calls it issued, in order.
* A run-time panic (a failed type assertion, a nil pointer) is an outcome of
  its own, `Outcome.panic`.
* Go `int` is taken to be 64 bits wide (`strconv.IntSize = 64`).
* Floating point BSON values are outside the embedding.
-/

deriving instance DecidableEq for Except

namespace Mongodb

/-! ## Values -/

/-- A scalar Go value as it is put into a `bson.E` by `createIndex` or decoded
from the server: an integer (`int`, `int32`, `int64`), a `bool` or a `string`. -/
inductive Scalar where
  | int (n : Int)
  | bool (b : Bool)
  | str (s : String)
  deriving DecidableEq, Repr

/-- The ordered document `bson.D`: a slice of `bson.E{Key, Value}`. -/
abbrev D := List (String × Scalar)

/-- An `interface{}` value found in an index descriptor (`bson.M`): a scalar,
a `bson.D` of scalars (what the key document of an index is), or any other
value (a nested document, an array, a null), kept by the text that `%v`
prints for it since this code never looks inside it. -/
inductive Any where
  | scalar (v : Scalar)
  | d (doc : D)
  | other (printed : String)
  deriving DecidableEq, Repr

/-- An index descriptor `bson.M`. The list order is the order in which
`range` visits the map; look-ups `result[k]` go by key. -/
abbrev M := List (String × Any)

/-- Decimal text of an integer, as `%v` prints it. -/
def formatInt : Int → String
  | Int.ofNat n => Nat.repr n
  | Int.negSucc n => "-" ++ Nat.repr (n + 1)

/-- `fmt.Sprintf("%v", v)` on a scalar. -/
def SprintfV : Scalar → String
  | .int n => formatInt n
  | .bool true => "true"
  | .bool false => "false"
  | .str s => s

/-- `fmt.Sprintf("%v", v)` on an `interface{}` value of a descriptor. A
`bson.D` prints as a slice of `{Key Value}` structs. -/
def SprintfAny : Any → String
  | .scalar v => SprintfV v
  | .d doc => "[" ++ " ".intercalate (doc.map fun e => "\x7b" ++ e.1 ++ " " ++ SprintfV e.2 ++ "\x7d") ++ "]"
  | .other printed => printed

/-! ## `strconv.Atoi` and `strings.ToLower` -/

/-- The two error kinds of `strconv`: `ErrSyntax` and `ErrRange`. -/
inductive NumError where
  | ErrSyntax
  | ErrRange
  deriving DecidableEq, Repr

/-- Value of a decimal digit, `none` for every other character. -/
def digitVal (c : Char) : Option Nat :=
  if '0' ≤ c ∧ c ≤ '9' then some (c.toNat - '0'.toNat) else none

/-- The digit loop of `strconv.ParseUint(s, 10, 64)`: a character that is not
a decimal digit is a syntax error, a value past `2^64 - 1` a range error. -/
def parseUintLoop : List Char → Nat → Except NumError Nat
  | [], n => .ok n
  | c :: cs, n =>
    match digitVal c with
    | none => .error .ErrSyntax
    | some d =>
      if n ≥ (2 ^ 64 - 1) / 10 + 1 then .error .ErrRange
      else if n * 10 + d > 2 ^ 64 - 1 then .error .ErrRange
      else parseUintLoop cs (n * 10 + d)

/-- `strconv.ParseUint(s, 10, 64)` on the characters of `s`. -/
def ParseUint (s : List Char) : Except NumError Nat :=
  match s with
  | [] => .error .ErrSyntax
  | _ => parseUintLoop s 0

/-- `strconv.ParseInt(s, 10, 0)` with a 64 bit `int`: an optional sign, then
`ParseUint`, then the range check against `2^63`. -/
def ParseInt (s : List Char) : Except NumError Int :=
  match s with
  | [] => .error .ErrSyntax
  | c :: cs =>
    let neg := c = '-'
    let rest := if c = '+' ∨ c = '-' then cs else s
    match ParseUint rest with
    | .error .ErrSyntax => .error .ErrSyntax
    | .error .ErrRange => .error .ErrRange
    | .ok un =>
      if ¬ neg ∧ un ≥ 2 ^ 63 then .error .ErrRange
      else if neg ∧ un > 2 ^ 63 then .error .ErrRange
      else .ok (if neg then - (un : Int) else (un : Int))

/-- `strconv.Atoi`. Its fast path for short strings computes what
`ParseInt(s, 10, 0)` computes, so one definition covers both. -/
def Atoi (s : String) : Except NumError Int := ParseInt s.data

/-- Text of `(*strconv.NumError).Error()` for a failed `Atoi(num)`; `quote`
stands for `strconv.Quote`. -/
def NumError.Error (quote : String → String) (num : String) : NumError → String
  | .ErrSyntax => "strconv.Atoi: parsing " ++ quote num ++ ": invalid syntax"
  | .ErrRange => "strconv.Atoi: parsing " ++ quote num ++ ": value out of range"

/-- The Go conversion `int32(v)`: the low 32 bits, read as a signed number. -/
def int32 (v : Int) : Int := (v + 2 ^ 31) % 2 ^ 32 - 2 ^ 31

/-- Lower-casing of one character as far as a comparison with an ASCII string
can tell: `A`..`Z` go to `a`..`z`, U+0130 goes to `i` and U+212A to `k` (the
only other runes `unicode.ToLower` sends into ASCII); every other character
is kept, where Go would keep it or replace it by another non-ASCII rune. -/
def toLowerChar (c : Char) : Char :=
  if 'A' ≤ c ∧ c ≤ 'Z' then Char.ofNat (c.toNat + 32)
  else if c = Char.ofNat 0x130 then 'i'
  else if c = Char.ofNat 0x212A then 'k'
  else c

/-- `strings.ToLower`, exact on every comparison with an ASCII string. -/
def ToLower (s : String) : String := String.mk (s.data.map toLowerChar)

/-! ## Index options and the key loop of `createIndex` -/

/-- The fields of `options.Index()` this resource sets; `none` is unset. -/
structure IndexOptions where
  ExpireAfterSeconds : Option Int
  Unique : Option Bool
  Name : Option String
  PartialFilterExpression : Option Any
  Hidden : Option Bool
  deriving DecidableEq, Repr

/-- `options.Index()`: nothing set. -/
def IndexOptions.empty : IndexOptions :=
  ⟨none, none, none, none, none⟩

def IndexOptions.SetExpireAfterSeconds (o : IndexOptions) (n : Int) : IndexOptions :=
  { o with ExpireAfterSeconds := some n }

def IndexOptions.SetUnique (o : IndexOptions) (b : Bool) : IndexOptions :=
  { o with Unique := some b }

def IndexOptions.SetName (o : IndexOptions) (s : String) : IndexOptions :=
  { o with Name := some s }

def IndexOptions.SetPartialFilterExpression (o : IndexOptions) (f : Any) : IndexOptions :=
  { o with PartialFilterExpression := some f }

def IndexOptions.SetHidden (o : IndexOptions) (b : Bool) : IndexOptions :=
  { o with Hidden := some b }

/-- Lines 317-330 of `createIndex`: the `unique` test followed by the chain
of literal comparisons that types the value. -/
def keyLadder (indexKeys : D) (indexOptions : IndexOptions) (keyField value : String) :
    D × IndexOptions :=
  if ToLower keyField = "unique" ∧ (ToLower value = "true" ∨ ToLower value = "false") then
    (indexKeys, indexOptions.SetUnique (decide (ToLower value = "true")))
  else if value = "1" then
    (indexKeys ++ [(keyField, Scalar.int 1)], indexOptions)
  else if value = "-1" then
    (indexKeys ++ [(keyField, Scalar.int (-1))], indexOptions)
  else if value = "true" then
    (indexKeys ++ [(keyField, Scalar.bool true)], indexOptions)
  else if value = "false" then
    (indexKeys ++ [(keyField, Scalar.bool false)], indexOptions)
  else
    (indexKeys ++ [(keyField, Scalar.str value)], indexOptions)

/-- One iteration of the key loop (lines 302-330): the `expireAfterSeconds`
branch, then `keyLadder`. An error ends `createIndex`. -/
def keyStep (quote : String → String) (indexKeys : D) (indexOptions : IndexOptions)
    (keyField value : String) : Except String (D × IndexOptions) :=
  if keyField = "expireAfterSeconds" then
    match Atoi value with
    | .error err =>
      .error ("expireAfterSeconds value must be integer : " ++ err.Error quote value ++ " ")
    | .ok valueInt =>
      if valueInt ≥ 0 then
        .ok (indexKeys, indexOptions.SetExpireAfterSeconds (int32 valueInt))
      else
        .ok (keyLadder indexKeys indexOptions keyField value)
  else
    .ok (keyLadder indexKeys indexOptions keyField value)

/-- The key loop of `createIndex` (lines 300-331) over the `keys` attribute,
a list of `(field, value)` pairs. -/
def keyLoop (quote : String → String) :
    List (String × String) → D → IndexOptions → Except String (D × IndexOptions)
  | [], indexKeys, indexOptions => .ok (indexKeys, indexOptions)
  | (keyField, value) :: keys, indexKeys, indexOptions =>
    match keyStep quote indexKeys indexOptions keyField value with
    | .error e => .error e
    | .ok (indexKeys1, indexOptions1) => keyLoop quote keys indexKeys1 indexOptions1

/-! ## Resource data, remote calls and the environment -/

/-- The attributes of the resource schema (lines 27-112). -/
structure Attrs where
  db : String
  collection : String
  keys : List (String × String)
  name : String
  partial_filter_expression : String
  hidden : Bool
  timeout : Int
  deriving DecidableEq, Repr

/-- The part of `schema.ResourceData` these operations use: the identity
(`d.Id()`, `d.State().ID`, `d.SetId`), the attribute values recorded by the
last apply (`prior`, the old side of `d.HasChange`) and the values `d.Get`
returns and `d.Set` overwrites (`attrs`). -/
structure ResourceData where
  id : String
  prior : Attrs
  attrs : Attrs
  deriving DecidableEq, Repr

/-- `d.State().ID`. `d.State()` is nil for a resource without identity (the
SDK calls read, update and delete on none such), and reading `ID` through
the nil pointer panics: `none`. -/
def ResourceData.StateID (data : ResourceData) : Option String :=
  if data.id = "" then none else some data.id

/-- `d.HasChange("hidden")`. -/
def ResourceData.HasChangeHidden (data : ResourceData) : Bool :=
  decide (data.prior.hidden ≠ data.attrs.hidden)

/-- A call that leaves the provider: the connection made by
`MongoClientInit`, `Indexes().List` with `All`, `Indexes().CreateOne`,
`RunCommand` with the `collMod` document of line 255, `Indexes().DropOne`. -/
inductive RemoteCall where
  | Connect
  | ListIndexes (db collection : String)
  | CreateOne (db collection : String) (keys : D) (opts : IndexOptions) (timeout : Int)
  | RunCommand (db collMod name : String) (hidden : Bool)
  | DropOne (db collection name : String)
  deriving DecidableEq, Repr

/-- Whether a call changes the remote database. -/
def RemoteCall.mutating : RemoteCall → Bool
  | .Connect => false
  | .ListIndexes _ _ => false
  | .CreateOne _ _ _ _ _ => true
  | .RunCommand _ _ _ _ => true
  | .DropOne _ _ _ => true

/-- Everything outside the source file. `MongoClientInit` (of this
repository) and the driver answer each call as a function of the calls
issued before it (`none` or `.ok` is success, the text is `err.Error()`);
`CollectionIsNil` tells whether the collection handle is nil. `sep` is the
delimiter of the identity string and `idError` the text of the error
`ParseId` reports; `Quote`, `UnmarshalExtJSON` and `MarshalExtJSON` are the
library functions `strconv.Quote`, `bson.UnmarshalExtJSON` and
`bson.MarshalExtJSON`. -/
structure Env where
  sep : Char
  idError : String → Nat → String
  Quote : String → String
  UnmarshalExtJSON : String → Except String Any
  MarshalExtJSON : Any → Except String String
  MongoClientInit : List RemoteCall → Option String
  CollectionIsNil : String → String → Bool
  ListIndexes : List RemoteCall → String → String → Except String (List M)
  CreateOne : List RemoteCall → String → String → D → IndexOptions → Int → Except String String
  RunCommand : List RemoteCall → String → String → String → Bool → Option String
  DropOne : List RemoteCall → String → String → String → Option String

/-- How an operation ends: `nil` diagnostics, an error diagnostic with its
summary, or a run-time panic. -/
inductive Outcome where
  | ok
  | error (summary : String)
  | panic
  deriving DecidableEq, Repr

/-- Result of an operation: how it ended, the resource data it leaves and
the calls issued so far (those before the operation, then its own). -/
structure Run where
  out : Outcome
  data : ResourceData
  log : List RemoteCall
  deriving DecidableEq, Repr

/-! ## Identity -/

/-- Modelled from the spec: `SetId`, a helper of this repository that is not
among the sources. The identity is the segments joined by a fixed delimiter,
in the order given. -/
def SetId (env : Env) (id : List String) : String :=
  String.mk ([env.sep].intercalate (id.map String.data))

/-- Modelled from the spec: `ParseId`, a helper of this repository that is
not among the sources. It splits the string at the delimiter and fails when
the number of segments is not the expected one (fewer or more), returning no
segments then. The spec names no other failure. -/
def ParseId (env : Env) (id : String) (expected : Nat) : List String × Option String :=
  let parts := (id.data.splitOn env.sep).map String.mk
  if parts.length = expected then (parts, none) else ([], some (env.idError id expected))

/-- Lines 388-398. On success `ParseId` has returned exactly three parts, so
the three index expressions are in range. -/
def resourceDatabaseIndexParseId (env : Env) (id : String) :
    String × String × String × Option String :=
  match ParseId env id 3 with
  | (_, some err) => ("", "", "", some err)
  | (parts, none) => (parts.getD 0 "", parts.getD 1 "", parts.getD 2 "", none)

/-! ## Read -/

/-- The look-up `result[k]` in a `bson.M`, with its `ok` flag. -/
def mapGet : M → String → Option Any
  | [], _ => none
  | (k1, v) :: rest, k => if k1 = k then some v else mapGet rest k

/-- State of the scan of lines 165-223. -/
structure Scan where
  indexFound : Bool
  indexKeys : List (String × String)
  data : ResourceData
  deriving DecidableEq, Repr

def ResourceData.SetPartialFilterExpression (data : ResourceData) (v : String) : ResourceData :=
  { data with attrs := { data.attrs with partial_filter_expression := v } }

def ResourceData.SetHidden (data : ResourceData) (v : Bool) : ResourceData :=
  { data with attrs := { data.attrs with hidden := v } }

/-- Lines 171-217: the body run on a descriptor whose name matches. `none` is
the panic of the type assertion `result["key"].(bson.D)`. -/
def readMatch (env : Env) (result : M) (st : Scan) : Option Scan :=
  match mapGet result "key" with
  | some (.d keysPrimitives) =>
    let indexKeys1 := st.indexKeys ++ keysPrimitives.map fun elem => (elem.1, SprintfV elem.2)
    let indexKeys2 :=
      match mapGet result "unique" with
      | some unique => indexKeys1 ++ [("unique", SprintfAny unique)]
      | none => indexKeys1
    let indexKeys3 :=
      match mapGet result "expireAfterSeconds" with
      | some expireAfter => indexKeys2 ++ [("expireAfterSeconds", SprintfAny expireAfter)]
      | none => indexKeys2
    let data1 :=
      match mapGet result "partialFilterExpression" with
      | some pfe =>
        match env.MarshalExtJSON pfe with
        | .ok pfeBytes => st.data.SetPartialFilterExpression pfeBytes
        | .error _ => st.data
      | none => st.data
    let data2 :=
      match mapGet result "hidden" with
      | some (.scalar (.bool hiddenBool)) => data1.SetHidden hiddenBool
      | some _ => data1
      | none => data1.SetHidden false
    some { indexFound := true, indexKeys := indexKeys3, data := data2 }
  | _ => none

/-- The inner loop of lines 169-222 over the entries of one descriptor, in
the order `range` visits them: the body runs at an entry `name` equal to the
index name and ends the loop; at any other entry the loop ends once
`indexFound` is set. -/
def readInner (env : Env) (indexName : String) (result : M) :
    List (String × Any) → Scan → Option Scan
  | [], st => some st
  | (k, v) :: rest, st =>
    if k = "name" ∧ v = Any.scalar (Scalar.str indexName) then readMatch env result st
    else if st.indexFound then some st
    else readInner env indexName result rest st

/-- The outer loop of lines 167-223 over the listed descriptors. -/
def readOuter (env : Env) (indexName : String) : List M → Scan → Option Scan
  | [], st => some st
  | result :: results, st =>
    match readInner env indexName result result st with
    | none => none
    | some st1 => readOuter env indexName results st1

/-- Lines 134-236. -/
def resourceDatabaseIndexRead (env : Env) (data : ResourceData) (log : List RemoteCall) : Run :=
  match env.MongoClientInit log with
  | some connectionError =>
    ⟨.error ("Error connecting to database : " ++ connectionError ++ " "), data, log ++ [.Connect]⟩
  | none =>
    match data.StateID with
    | none => ⟨.panic, data, log ++ [.Connect]⟩
    | some stateID =>
    match resourceDatabaseIndexParseId env stateID with
    | (_, _, _, some err) => ⟨.error err, data, log ++ [.Connect]⟩
    | (db, collectionName, indexName, none) =>
      if env.CollectionIsNil db collectionName then
        ⟨.error "Collection client is nil", data, log ++ [.Connect]⟩
      else
        match env.ListIndexes (log ++ [.Connect]) db collectionName with
        | .error err =>
          ⟨.error ("Failed to list indexes: " ++ err), data,
            log ++ [.Connect, .ListIndexes db collectionName]⟩
        | .ok results =>
          match readOuter env indexName results ⟨false, [], data⟩ with
          | none => ⟨.panic, data, log ++ [.Connect, .ListIndexes db collectionName]⟩
          | some st =>
            if st.indexFound = false then
              ⟨.error "index does not exist", st.data,
                log ++ [.Connect, .ListIndexes db collectionName]⟩
            else
              ⟨.ok,
                { st.data with
                  attrs := { st.data.attrs with
                    db := db, collection := collectionName, name := indexName,
                    keys := st.indexKeys, timeout := st.data.attrs.timeout } },
                log ++ [.Connect, .ListIndexes db collectionName]⟩

/-! ## Create, update, delete -/

/-- Lines 291-361 of `createIndex`: the key document and the options handed
to `CreateOne`, or the error returned before the call. -/
def createIndexRequest (env : Env) (data : ResourceData) : Except String (D × IndexOptions) :=
  match keyLoop env.Quote data.attrs.keys [] IndexOptions.empty with
  | .error e => .error e
  | .ok (indexKeys, indexOptions) =>
    let name := data.attrs.name
    let indexOptions1 := if name.length > 0 then indexOptions.SetName name else indexOptions
    let partialFilter := data.attrs.partial_filter_expression
    match
      (if partialFilter.length > 0 then
        match env.UnmarshalExtJSON partialFilter with
        | .error err => Except.error ("Invalid partial_filter_expression JSON: " ++ err)
        | .ok filterDoc => Except.ok (indexOptions1.SetPartialFilterExpression filterDoc)
      else Except.ok indexOptions1) with
    | .error e => .error e
    | .ok indexOptions2 =>
      let indexOptions3 := if data.attrs.hidden then indexOptions2.SetHidden true else indexOptions2
      .ok (indexKeys, indexOptions3)

/-- Lines 291-374: returns the index name, the diagnostics (`none` is `nil`)
and the calls issued so far. -/
def createIndex (env : Env) (db collectionName : String) (data : ResourceData)
    (log : List RemoteCall) : String × Option String × List RemoteCall :=
  match createIndexRequest env data with
  | .error e => ("", some e, log)
  | .ok (indexKeys, indexOptions) =>
    let timeout := data.attrs.timeout
    let log1 := log ++ [.CreateOne db collectionName indexKeys indexOptions timeout]
    match env.CreateOne log db collectionName indexKeys indexOptions timeout with
    | .error err => ("", some ("Could not create the index : " ++ err ++ " "), log1)
    | .ok indexName => (indexName, none, log1)

/-- Lines 116-132. -/
def resourceDatabaseIndexCreate (env : Env) (data : ResourceData) (log : List RemoteCall) : Run :=
  match env.MongoClientInit log with
  | some connectionError =>
    ⟨.error ("Error connecting to db : " ++ connectionError ++ " "), data, log ++ [.Connect]⟩
  | none =>
    let db := data.attrs.db
    let collectionName := data.attrs.collection
    match createIndex env db collectionName data (log ++ [.Connect]) with
    | (_, some diags, log1) => ⟨.error diags, data, log1⟩
    | (indexName, none, log1) =>
      resourceDatabaseIndexRead env { data with id := SetId env [db, collectionName, indexName] } log1

/-- Lines 238-268. -/
def resourceDatabaseIndexUpdate (env : Env) (data : ResourceData) (log : List RemoteCall) : Run :=
  if data.HasChangeHidden then
    match env.MongoClientInit log with
    | some connectionError =>
      ⟨.error ("Error connecting to database : " ++ connectionError ++ " "), data, log ++ [.Connect]⟩
    | none =>
      match data.StateID with
      | none => ⟨.panic, data, log ++ [.Connect]⟩
      | some stateID =>
      match resourceDatabaseIndexParseId env stateID with
      | (_, _, _, some err) => ⟨.error err, data, log ++ [.Connect]⟩
      | (db, collectionName, indexName, none) =>
        let hidden := data.attrs.hidden
        let log1 := log ++ [.Connect, .RunCommand db collectionName indexName hidden]
        match env.RunCommand (log ++ [.Connect]) db collectionName indexName hidden with
        | some err => ⟨.error ("Failed to update index hidden state: " ++ err), data, log1⟩
        | none => resourceDatabaseIndexRead env data log1
  else
    resourceDatabaseIndexRead env data log

/-- Lines 376-386: the diagnostics (`none` is `nil`) and the calls so far. -/
def dropIndex (env : Env) (db collectionName indexName : String) (log : List RemoteCall) :
    Option String × List RemoteCall :=
  match env.DropOne log db collectionName indexName with
  | some err => (some err, log ++ [.DropOne db collectionName indexName])
  | none => (none, log ++ [.DropOne db collectionName indexName])

/-- Lines 270-289. The comment of line 277 speaks of an identity of database
and collection of which only collection and index are used; the code parses
three components and uses the database as well, and so does this
definition. -/
def resourceDatabaseIndexDelete (env : Env) (data : ResourceData) (log : List RemoteCall) : Run :=
  match env.MongoClientInit log with
  | some connectionError =>
    ⟨.error ("Error connecting to database : " ++ connectionError ++ " "), data, log ++ [.Connect]⟩
  | none =>
    match data.StateID with
    | none => ⟨.panic, data, log ++ [.Connect]⟩
    | some stateID =>
    match resourceDatabaseIndexParseId env stateID with
    | (_, _, _, some err) => ⟨.error ("Failed to parse index ID " ++ err), data, log ++ [.Connect]⟩
    | (db, collectionName, indexName, none) =>
      match dropIndex env db collectionName indexName (log ++ [.Connect]) with
      | (some err, log1) => ⟨.error err, data, log1⟩
      | (none, log1) => ⟨.ok, data, log1⟩

/-! ## A server that stores an index as requested -/

/-- The descriptor listed for an index stored exactly as requested: the
requested key document under `key`, the name under `name`, and each option
that was set under its own field. -/
def storeIndex (name : String) (keys : D) (opts : IndexOptions) : M :=
  [("v", Any.scalar (Scalar.int 2)), ("key", Any.d keys), ("name", Any.scalar (Scalar.str name))]
  ++ (match opts.Unique with
      | some b => [("unique", Any.scalar (Scalar.bool b))]
      | none => [])
  ++ (match opts.ExpireAfterSeconds with
      | some n => [("expireAfterSeconds", Any.scalar (Scalar.int n))]
      | none => [])
  ++ (match opts.PartialFilterExpression with
      | some f => [("partialFilterExpression", f)]
      | none => [])
  ++ (match opts.Hidden with
      | some b => [("hidden", Any.scalar (Scalar.bool b))]
      | none => [])

/-- The name a server gives an index created without one: the fields and
their printed values joined by underscores. -/
def generatedName (keys : D) : String :=
  "_".intercalate (keys.map fun e => e.1 ++ "_" ++ SprintfV e.2)

/-- Effect of one call on the indexes of a collection, for a server that
stores an index as requested unless its key document is empty or its name is
taken, removes it on `DropOne` and records the flag of a `collMod`. -/
def applyCall (db collection : String) (idx : List (String × D × IndexOptions)) :
    RemoteCall → List (String × D × IndexOptions)
  | .CreateOne d c keys opts _ =>
    if d = db ∧ c = collection ∧ keys ≠ [] ∧
        (idx.any fun i => decide (i.1 = opts.Name.getD (generatedName keys))) = false then
      idx ++ [(opts.Name.getD (generatedName keys), keys, opts)]
    else idx
  | .DropOne d c n =>
    if d = db ∧ c = collection then idx.filter fun i => decide (i.1 ≠ n) else idx
  | .RunCommand d c n h =>
    if d = db ∧ c = collection then
      idx.map fun i => if i.1 = n then (i.1, i.2.1, i.2.2.SetHidden h) else i
    else idx
  | _ => idx

/-- The indexes of one collection after the calls of a log. -/
def storedIndexes (db collection : String) (log : List RemoteCall) :
    List (String × D × IndexOptions) :=
  log.foldl (applyCall db collection) []

/-- The descriptor of the identifier index every collection has. -/
def idIndex : M :=
  [("v", Any.scalar (Scalar.int 2)), ("key", Any.d [("_id", Scalar.int 1)]),
   ("name", Any.scalar (Scalar.str "_id_"))]

/-- An environment whose server behaves as a MongoDB server does on the
calls of this resource: it rejects a key document that is empty and a name
that is taken by another index, stores every other index as requested and
lists it back after the identifier index, each name once. Connections never
fail, dropping an absent index does, and the identity delimiter is the
character of code 0 used by the spec. -/
def storingServer : Env where
  sep := Char.ofNat 0
  idError := fun id _ => "unexpected format of ID: " ++ id
  Quote := fun s => "\"" ++ s ++ "\""
  UnmarshalExtJSON := fun s =>
    if s.data.head? = some (Char.ofNat 123) then .ok (Any.other s) else .error "invalid JSON input"
  MarshalExtJSON := fun v =>
    match v with
    | .other printed => .ok printed
    | _ => .error "not a document"
  MongoClientInit := fun _ => none
  CollectionIsNil := fun _ _ => false
  ListIndexes := fun log db collection =>
    .ok (idIndex :: (storedIndexes db collection log).map fun i => storeIndex i.1 i.2.1 i.2.2)
  CreateOne := fun log db collection keys opts _ =>
    if keys = [] then .error "Index keys cannot be empty."
    else
      match (storedIndexes db collection log).find?
          fun i => decide (i.1 = opts.Name.getD (generatedName keys)) with
      | none => .ok (opts.Name.getD (generatedName keys))
      | some i =>
        if i.2 = (keys, opts) then .ok i.1
        else .error "An existing index has the same name as the requested index."
  RunCommand := fun _ _ _ _ _ => none
  DropOne := fun log db collection name =>
    if (storedIndexes db collection log).any fun i => decide (i.1 = name) then none
    else some ("index not found with name [" ++ name ++ "]")

/-- A configuration with the given database, collection, keys and name, no
partial filter, not hidden, timeout 30, and no identity yet. -/
def config (db collection : String) (keys : List (String × String)) (name : String) :
    ResourceData :=
  let a : Attrs := ⟨db, collection, keys, name, "", false, 30⟩
  ⟨"", ⟨"", "", [], "", "", false, 0⟩, a⟩

/-! ## Notions used in the statements -/

/-- The typing ladder in the words of the spec: `"1"` is the integer 1,
`"-1"` the integer -1, `"true"` and `"false"` the booleans, checked in this
order; every other string is kept as a raw string. -/
def typedValue (value : String) : Scalar :=
  if value = "1" then Scalar.int 1
  else if value = "-1" then Scalar.int (-1)
  else if value = "true" then Scalar.bool true
  else if value = "false" then Scalar.bool false
  else Scalar.str value

/-- A pair named `expireAfterSeconds` whose value `Atoi` rejects. -/
def malformedTTL (p : String × String) : Bool :=
  decide (p.1 = "expireAfterSeconds") &&
    (match Atoi p.2 with
     | .ok _ => false
     | .error _ => true)

/-- A pair named `expireAfterSeconds` whose value parses as an integer that
is not negative: the pair that becomes the TTL option. -/
def isTTLOption (p : String × String) : Bool :=
  decide (p.1 = "expireAfterSeconds") &&
    (match Atoi p.2 with
     | .ok n => decide (n ≥ 0)
     | .error _ => false)

/-- A pair whose field is `unique` and whose value is `true` or `false`, both
compared after lower-casing: the pair that becomes the unique option. -/
def isUniqueOption (p : String × String) : Bool :=
  decide (ToLower p.1 = "unique" ∧ (ToLower p.2 = "true" ∨ ToLower p.2 = "false"))

/-- A pair that is extracted as an inline option. -/
def isInlineOption (p : String × String) : Bool :=
  isTTLOption p || isUniqueOption p

/-- The pairs of a key sequence that are not extracted, in input order. -/
def retained (keys : List (String × String)) : List (String × String) :=
  keys.filter fun p => !isInlineOption p

/-- The option a pair records, if it is an inline option. -/
def applyInline (o : IndexOptions) (p : String × String) : IndexOptions :=
  if isTTLOption p then
    match Atoi p.2 with
    | .ok n => o.SetExpireAfterSeconds (int32 n)
    | .error _ => o
  else if isUniqueOption p then o.SetUnique (decide (ToLower p.2 = "true"))
  else o

/-- The synthetic pairs a read appends for the options of a stored index:
`unique` first, then `expireAfterSeconds`, each when set. -/
def syntheticPairs (opts : IndexOptions) : List (String × String) :=
  (match opts.Unique with
   | some b => [("unique", SprintfV (Scalar.bool b))]
   | none => [])
  ++ (match opts.ExpireAfterSeconds with
      | some n => [("expireAfterSeconds", SprintfV (Scalar.int n))]
      | none => [])

/-- The descriptor maps `name` to the string `indexName`. -/
def hasName (indexName : String) (result : M) : Prop :=
  ("name", Any.scalar (Scalar.str indexName)) ∈ result

instance (indexName : String) (result : M) : Decidable (hasName indexName result) := by
  unfold hasName; infer_instance

/-- A listed descriptor holds an index as requested, in the fields the keys
attribute is read from: the name, the key document, and the unique and TTL
options, each present when and only when it was set, with the value set. -/
def StoredAs (result : M) (name : String) (keys : D) (opts : IndexOptions) : Prop :=
  mapGet result "name" = some (Any.scalar (Scalar.str name)) ∧
  mapGet result "key" = some (Any.d keys) ∧
  mapGet result "unique" = opts.Unique.map (fun b => Any.scalar (Scalar.bool b)) ∧
  mapGet result "expireAfterSeconds" =
    opts.ExpireAfterSeconds.map (fun n => Any.scalar (Scalar.int n))

instance (result : M) (name : String) (keys : D) (opts : IndexOptions) :
    Decidable (StoredAs result name keys opts) := by
  unfold StoredAs; infer_instance

/-- The listing holds `result` and no other descriptor of that name. -/
def OnlyNamed (indexName : String) (result : M) (results : List M) : Prop :=
  ∃ pre post, results = pre ++ result :: post ∧ ∀ m ∈ pre ++ post, ¬ hasName indexName m

/-- The read of `data` after the calls `log` gets as far as the scan: the
connection is made, the identity parses to `(db, collection, indexName)`
and the listing of that collection answers `results`. -/
def ReadLists (env : Env) (data : ResourceData) (log : List RemoteCall)
    (db collection indexName : String) (results : List M) : Prop :=
  env.MongoClientInit log = none ∧
  resourceDatabaseIndexParseId env data.id = (db, collection, indexName, none) ∧
  env.CollectionIsNil db collection = false ∧
  env.ListIndexes (log ++ [.Connect]) db collection = .ok results

/-- The key document entry of a retained pair. -/
def typedPair (p : String × String) : String × Scalar := (p.1, typedValue p.2)

/-- The server rejects a creation call whose key document is empty, as a
MongoDB server does. -/
def RejectsEmptyKeys (env : Env) : Prop :=
  ∀ log db collection opts timeout,
    ∃ e, env.CreateOne log db collection [] opts timeout = .error e

/-- A key sequence in the order a read returns it: pairs that are not inline
options, then at most one pair `unique` with the value `true` or `false`,
then at most one pair `expireAfterSeconds` whose value is the plain decimal
text of a number below `2^31`. -/
def ReadOrder (keys : List (String × String)) : Prop :=
  ∃ real uniq ttl, keys = real ++ uniq ++ ttl ∧
    (∀ p ∈ real, isInlineOption p = false) ∧
    (uniq = [] ∨ uniq = [("unique", "true")] ∨ uniq = [("unique", "false")]) ∧
    (ttl = [] ∨ ∃ n : Nat, n < 2 ^ 31 ∧ ttl = [("expireAfterSeconds", Nat.repr n)])

/-- The create of `cfg` after the calls `log` gets as far as the scan of its
read: the connection is made, `createIndex` builds the request
`(doc, opts)`, the server accepts it and answers `indexName`, and the read
of the new identity lists `results`. -/
def CreateLists (env : Env) (cfg : ResourceData) (log : List RemoteCall) (doc : D)
    (opts : IndexOptions) (indexName : String) (results : List M) : Prop :=
  env.MongoClientInit log = none ∧
  createIndexRequest env cfg = .ok (doc, opts) ∧
  env.CreateOne (log ++ [.Connect]) cfg.attrs.db cfg.attrs.collection doc opts
    cfg.attrs.timeout = .ok indexName ∧
  ReadLists env { cfg with id := SetId env [cfg.attrs.db, cfg.attrs.collection, indexName] }
    (log ++ [.Connect,
      .CreateOne cfg.attrs.db cfg.attrs.collection doc opts cfg.attrs.timeout])
    cfg.attrs.db cfg.attrs.collection indexName results

/-! ## Configurations of the acceptance tests -/

/-- The keys of `testAccMongoDBIndexCompound`. -/
def compoundKeys : List (String × String) := [("name", "1"), ("age", "-1"), ("category", "1")]

/-- The key document `createIndex` builds from `compoundKeys`. -/
def compoundDoc : D :=
  [("name", Scalar.int 1), ("age", Scalar.int (-1)), ("category", Scalar.int 1)]

/-- The options `createIndex` builds for an index named `idx1` alone. -/
def namedOpts : IndexOptions := IndexOptions.empty.SetName "idx1"

/-- The calls of a create of `compoundKeys` up to its read. -/
def compoundLog : List RemoteCall :=
  [.Connect, .CreateOne "mydb" "mycoll" compoundDoc namedOpts 30]

/-- The resource data of a configuration once create has set the identity of
the index `idx1` of collection `mycoll` of database `mydb`. -/
def created (keys : List (String × String)) : ResourceData :=
  { config "mydb" "mycoll" keys "idx1" with id := SetId storingServer ["mydb", "mycoll", "idx1"] }

/-- The calls of a create up to its read, for the request `(doc, opts)`. -/
def createLog (doc : D) (opts : IndexOptions) : List RemoteCall :=
  [.Connect, .CreateOne "mydb" "mycoll" doc opts 30]

/-- The keys of `testAccMongoDBIndexTTL`. -/
def ttlKeys : List (String × String) := [("created_at", "1"), ("expireAfterSeconds", "3600")]

/-- The key document `createIndex` builds from `ttlKeys`. -/
def ttlDoc : D := [("created_at", Scalar.int 1)]

/-- The options `createIndex` builds from `ttlKeys` and the name `idx1`. -/
def ttlOpts : IndexOptions := (IndexOptions.empty.SetExpireAfterSeconds 3600).SetName "idx1"

/-- The keys of `testAccMongoDBIndexUnique`. -/
def uniqueKeys : List (String × String) :=
  [("entity_type", "1"), ("entity_id", "1"), ("profile_type", "1"), ("unique", "true")]

/-- The key document `createIndex` builds from `uniqueKeys`. -/
def uniqueDoc : D :=
  [("entity_type", Scalar.int 1), ("entity_id", Scalar.int 1), ("profile_type", Scalar.int 1)]

/-- The options `createIndex` builds from `uniqueKeys` and the name `idx1`. -/
def uniqueOpts : IndexOptions := (IndexOptions.empty.SetUnique true).SetName "idx1"

/-- A key sequence that names the unique option before its key field. -/
def uniqueFirstKeys : List (String × String) := [("unique", "true"), ("a", "1")]

/-- A key sequence that sets the unique option twice, to different values. -/
def uniqueTwiceKeys : List (String × String) :=
  [("a", "1"), ("unique", "true"), ("unique", "false")]

/-- The call addresses the index `name` of collection `collection` of
database `db`: a listing of that collection, a `collMod` of that index, a
drop of that index. A connection addresses no index; a creation is no call
of read, update or delete. -/
def RemoteCall.uses (db collection name : String) : RemoteCall → Prop
  | .Connect => True
  | .ListIndexes d c => d = db ∧ c = collection
  | .CreateOne _ _ _ _ _ => False
  | .RunCommand d c n _ => d = db ∧ c = collection ∧ n = name
  | .DropOne d c n => d = db ∧ c = collection ∧ n = name

/-- The storing server behind a connection that cannot be made. -/
def unreachableServer : Env :=
  { storingServer with MongoClientInit := fun _ => some "server selection timeout" }

/-- Resource data of the index `idx1` recorded as visible and planned hidden. -/
def hideIndex : ResourceData :=
  { created compoundKeys with
    prior := ⟨"mydb", "mycoll", compoundKeys, "idx1", "", false, 30⟩
    attrs := ⟨"mydb", "mycoll", compoundKeys, "idx1", "", true, 30⟩ }

/-- The database, collection and index name parsed from the identity. -/
def parsedDb (env : Env) (data : ResourceData) : String :=
  (resourceDatabaseIndexParseId env data.id).1

def parsedCollection (env : Env) (data : ResourceData) : String :=
  (resourceDatabaseIndexParseId env data.id).2.1

def parsedName (env : Env) (data : ResourceData) : String :=
  (resourceDatabaseIndexParseId env data.id).2.2.1

/-- Resource data whose attributes name another database, collection and
index than the identity does, as after an import none at all. -/
def imported : ResourceData :=
  ⟨SetId storingServer ["mydb", "mycoll", "idx1"], ⟨"", "", [], "", "", false, 0⟩,
    ⟨"", "", [], "", "", false, 0⟩⟩

/-- The keys list read from one descriptor: the pairs of its key document
printed in order, then the `unique` pair when the descriptor has that field,
then the `expireAfterSeconds` pair when it has that one. -/
def keysOfDescriptor (doc : D) (unique expireAfter : Option Any) : List (String × String) :=
  doc.map (fun e => (e.1, SprintfV e.2))
  ++ (match unique with
      | some u => [("unique", SprintfAny u)]
      | none => [])
  ++ (match expireAfter with
      | some t => [("expireAfterSeconds", SprintfAny t)]
      | none => [])

/-- The resource data of `created` with a partial filter recorded by an
earlier apply. -/
def createdWithFilter (keys : List (String × String)) : ResourceData :=
  { created keys with
    attrs := { (created keys).attrs with partial_filter_expression := "\x7b\x7d" } }

/-- The storing server with a listing that fails. -/
def listingFails : Env :=
  { storingServer with ListIndexes := fun _ _ _ => .error "connection reset" }

/-- A TTL of `2^32` seconds. -/
def wideTTLKeys : List (String × String) :=
  [("created_at", "1"), ("expireAfterSeconds", "4294967296")]

/-- A unique pair whose value is written in upper case. -/
def upperUniqueKeys : List (String × String) := [("a", "1"), ("unique", "TRUE")]

/-- A key sequence that holds the unique option and nothing else. -/
def uniqueOnlyKeys : List (String × String) := [("unique", "true")]

/-- The calls of a create of `compoundKeys` and of an update that hides the
index. -/
def hiddenLog : List RemoteCall :=
  compoundLog ++ [.Connect, .RunCommand "mydb" "mycoll" "idx1" true]

/-- The calls of a create of `compoundKeys` as `idx1` followed by a create
of a second index, `idx2`, on the same collection. -/
def twoIndexLog : List RemoteCall :=
  compoundLog ++
    [.Connect, .CreateOne "mydb" "mycoll" [("b", Scalar.int 1)]
      (IndexOptions.empty.SetName "idx2") 30]

/-! ## The key loop -/

theorem keyLadder_eq (ks : D) (os : IndexOptions) (f v : String) :
    keyLadder ks os f v =
      (if isUniqueOption (f, v) then ks else ks ++ [(f, typedValue v)],
       if isUniqueOption (f, v) then os.SetUnique (decide (ToLower v = "true")) else os) := by
  unfold keyLadder isUniqueOption typedValue
  by_cases h : ToLower f = "unique" ∧ (ToLower v = "true" ∨ ToLower v = "false")
  · simp [h]
  · simp only [h, if_false, decide_False, Bool.false_eq_true]
    split_ifs <;> rfl

theorem lower_expire_ne_unique : ToLower "expireAfterSeconds" ≠ "unique" := by decide

theorem keyStep_malformed (q : String → String) (ks : D) (os : IndexOptions) (f v : String)
    (h : malformedTTL (f, v) = true) : ∃ e, keyStep q ks os f v = .error e := by
  unfold malformedTTL at h
  simp only [Bool.and_eq_true, decide_eq_true_eq] at h
  obtain ⟨hf, hv⟩ := h
  unfold keyStep
  cases ha : Atoi v with
  | error err => simp [hf]
  | ok n => simp [ha] at hv

theorem keyStep_ok (q : String → String) (ks : D) (os : IndexOptions) (f v : String)
    (h : malformedTTL (f, v) = false) :
    keyStep q ks os f v =
      .ok (if isInlineOption (f, v) then ks else ks ++ [(f, typedValue v)],
           applyInline os (f, v)) := by
  unfold keyStep
  by_cases hf : f = "expireAfterSeconds"
  · subst hf
    have hu : isUniqueOption ("expireAfterSeconds", v) = false := by
      unfold isUniqueOption
      simp [lower_expire_ne_unique]
    cases ha : Atoi v with
    | error err => simp [malformedTTL, ha] at h
    | ok n =>
      by_cases hn : n ≥ 0
      · simp [isInlineOption, isTTLOption, applyInline, ha, hn]
      · simp [isInlineOption, isTTLOption, applyInline, ha, hn, keyLadder_eq, hu]
  · simp [hf, isInlineOption, isTTLOption, applyInline, keyLadder_eq]

theorem keyLoop_ok (q : String → String) (keys : List (String × String)) :
    ∀ (ks : D) (os : IndexOptions), (∀ p ∈ keys, malformedTTL p = false) →
      keyLoop q keys ks os = .ok (ks ++ (retained keys).map typedPair, keys.foldl applyInline os) := by
  induction keys with
  | nil => intro ks os _; simp [keyLoop, retained]
  | cons p keys ih =>
    intro ks os h
    obtain ⟨f, v⟩ := p
    have hp : malformedTTL (f, v) = false := h (f, v) (List.mem_cons_self _ _)
    have hrest : ∀ p ∈ keys, malformedTTL p = false := fun p hp => h p (List.mem_cons_of_mem _ hp)
    simp only [keyLoop, keyStep_ok q ks os f v hp, ih _ _ hrest, List.foldl_cons]
    by_cases hi : isInlineOption (f, v) = true
    · simp [retained, List.filter_cons, hi]
    · simp [retained, List.filter_cons, hi, typedPair]

theorem keyLoop_error (q : String → String) (keys : List (String × String)) :
    ∀ (ks : D) (os : IndexOptions), (∃ p ∈ keys, malformedTTL p = true) →
      ∃ e, keyLoop q keys ks os = .error e := by
  induction keys with
  | nil => intro ks os h; simp at h
  | cons p keys ih =>
    intro ks os h
    obtain ⟨f, v⟩ := p
    by_cases hp : malformedTTL (f, v) = true
    · obtain ⟨e, he⟩ := keyStep_malformed q ks os f v hp
      exact ⟨e, by simp [keyLoop, he]⟩
    · have hp2 : malformedTTL (f, v) = false := by simpa using hp
      have hrest : ∃ p ∈ keys, malformedTTL p = true := by
        obtain ⟨p, hmem, hm⟩ := h
        rcases List.mem_cons.mp hmem with rfl | hmem
        · exact absurd hm hp
        · exact ⟨p, hmem, hm⟩
      simp only [keyLoop, keyStep_ok q ks os f v hp2]
      exact ih _ _ hrest

/-- A finished key loop: no pair was malformed, the key document is the
typed retained pairs appended in order, the options are those of the inline
pairs applied in order. -/
theorem keyLoop_result (q : String → String) (keys : List (String × String)) (ks : D)
    (os : IndexOptions) (r : D × IndexOptions) (h : keyLoop q keys ks os = .ok r) :
    (∀ p ∈ keys, malformedTTL p = false) ∧
      r = (ks ++ (retained keys).map typedPair, keys.foldl applyInline os) := by
  have hno : ∀ p ∈ keys, malformedTTL p = false := by
    intro p hp
    by_contra hm
    have hm2 : malformedTTL p = true := by simpa using hm
    obtain ⟨e, he⟩ := keyLoop_error q keys ks os ⟨p, hp, hm2⟩
    rw [he] at h
    cases h
  refine ⟨hno, ?_⟩
  rw [keyLoop_ok q keys ks os hno] at h
  cases h
  rfl

/-! ## The identity read through the state -/

theorem parse_empty (env : Env) :
    resourceDatabaseIndexParseId env "" = ("", "", "", some (env.idError "" 3)) := by
  unfold resourceDatabaseIndexParseId ParseId
  simp [List.splitOn_nil]

theorem stateID_of_parse (env : Env) (data : ResourceData) (db collection name : String)
    (h : resourceDatabaseIndexParseId env data.id = (db, collection, name, none)) :
    data.StateID = some data.id := by
  unfold ResourceData.StateID
  by_cases he : data.id = ""
  · rw [he, parse_empty] at h
    simp at h
  · rw [if_neg he]

theorem stateID_some (data : ResourceData) (x : String) (h : data.StateID = some x) :
    x = data.id := by
  unfold ResourceData.StateID at h
  by_cases he : data.id = ""
  · rw [if_pos he] at h
    cases h
  · rw [if_neg he] at h
    cases h
    rfl

/-! ## The scan of the read -/

theorem readInner_noMatch (env : Env) (indexName : String) (result : M) :
    ∀ (entries : List (String × Any)) (st : Scan),
      ("name", Any.scalar (Scalar.str indexName)) ∉ entries →
      readInner env indexName result entries st = some st := by
  intro entries
  induction entries with
  | nil => intro st _; rfl
  | cons e entries ih =>
    intro st h
    obtain ⟨k, v⟩ := e
    have hne : ¬ (k = "name" ∧ v = Any.scalar (Scalar.str indexName)) := by
      rintro ⟨rfl, rfl⟩
      exact h (List.mem_cons_self _ _)
    have hrest : ("name", Any.scalar (Scalar.str indexName)) ∉ entries :=
      fun hm => h (List.mem_cons_of_mem _ hm)
    unfold readInner
    rw [if_neg hne]
    by_cases hf : st.indexFound = true
    · rw [if_pos hf]
    · rw [if_neg hf]
      exact ih st hrest

theorem readOuter_noMatch (env : Env) (indexName : String) :
    ∀ (results : List M) (st : Scan), (∀ m ∈ results, ¬ hasName indexName m) →
      readOuter env indexName results st = some st := by
  intro results
  induction results with
  | nil => intro st _; rfl
  | cons m results ih =>
    intro st h
    have hm : ("name", Any.scalar (Scalar.str indexName)) ∉ m := h m (List.mem_cons_self _ _)
    unfold readOuter
    rw [readInner_noMatch env indexName m m st hm]
    exact ih st fun m2 h2 => h m2 (List.mem_cons_of_mem _ h2)

theorem readInner_named (env : Env) (indexName : String) (result : M) :
    ∀ (entries : List (String × Any)) (st : Scan), st.indexFound = false →
      mapGet entries "name" = some (Any.scalar (Scalar.str indexName)) →
      readInner env indexName result entries st = readMatch env result st := by
  intro entries
  induction entries with
  | nil => intro st _ h; simp [mapGet] at h
  | cons e entries ih =>
    intro st hf h
    obtain ⟨k, v⟩ := e
    unfold readInner
    by_cases hk : k = "name"
    · subst hk
      simp only [mapGet, if_true, Option.some.injEq] at h
      subst h
      simp
    · simp only [mapGet, if_neg hk] at h
      have hne : ¬ (k = "name" ∧ v = Any.scalar (Scalar.str indexName)) := fun hc => hk hc.1
      rw [if_neg hne, hf]
      simp only [Bool.false_eq_true, if_false]
      exact ih st hf h

theorem readOuter_append (env : Env) (indexName : String) :
    ∀ (pre post : List M) (st : Scan),
      readOuter env indexName (pre ++ post) st =
        match readOuter env indexName pre st with
        | none => none
        | some st1 => readOuter env indexName post st1 := by
  intro pre
  induction pre with
  | nil => intro post st; rfl
  | cons m pre ih =>
    intro post st
    simp only [List.cons_append, readOuter]
    cases readInner env indexName m m st with
    | none => rfl
    | some st1 => exact ih post st1

/-- The scan of a listing in which one descriptor carries the wanted name
runs the body on that descriptor and on no other. -/
theorem readOuter_onlyNamed (env : Env) (indexName : String) (result : M) (results : List M)
    (st : Scan) (hf : st.indexFound = false)
    (hname : mapGet result "name" = some (Any.scalar (Scalar.str indexName)))
    (honly : OnlyNamed indexName result results) :
    readOuter env indexName results st = readMatch env result st := by
  obtain ⟨pre, post, rfl, hno⟩ := honly
  have hpre : ∀ m ∈ pre, ¬ hasName indexName m := fun m hm => hno m (List.mem_append_left _ hm)
  have hpost : ∀ m ∈ post, ¬ hasName indexName m := fun m hm => hno m (List.mem_append_right _ hm)
  rw [readOuter_append, readOuter_noMatch env indexName pre st hpre]
  simp only [readOuter]
  rw [readInner_named env indexName result result st hf hname]
  cases hm : readMatch env result st with
  | none => rfl
  | some st1 => exact readOuter_noMatch env indexName post st1 hpost

/-- The body of the scan on a descriptor stored as requested: the key pairs
printed in order, then the synthetic pairs of the options. -/
theorem readMatch_stored (env : Env) (result : M) (name : String) (doc : D) (opts : IndexOptions)
    (st : Scan) (hs : StoredAs result name doc opts) :
    ∃ st1, readMatch env result st = some st1 ∧ st1.indexFound = true ∧
      st1.indexKeys =
        st.indexKeys ++ doc.map (fun e => (e.1, SprintfV e.2)) ++ syntheticPairs opts := by
  obtain ⟨_, hkey, hu, ht⟩ := hs
  unfold readMatch
  rw [hkey, hu, ht]
  refine ⟨_, rfl, rfl, ?_⟩
  unfold syntheticPairs
  cases opts.Unique <;> cases opts.ExpireAfterSeconds <;> simp [SprintfAny]

theorem Sprintf_typedValue (v : String) : SprintfV (typedValue v) = v := by
  unfold typedValue
  split_ifs with h1 h2 h3 h4
  · subst h1; decide
  · subst h2; decide
  · subst h3; rfl
  · subst h4; rfl
  · rfl

theorem print_typedPair (keys : List (String × String)) :
    (keys.map typedPair).map (fun e => (e.1, SprintfV e.2)) = keys := by
  induction keys with
  | nil => rfl
  | cons p keys ih =>
    simp only [List.map_cons, ih, typedPair, Sprintf_typedValue]

/-- What `createIndex` hands to `CreateOne` comes from the key loop: the key
document unchanged, the unique and TTL options unchanged. -/
theorem createIndexRequest_keyLoop (env : Env) (cfg : ResourceData) (doc : D)
    (opts : IndexOptions) (h : createIndexRequest env cfg = .ok (doc, opts)) :
    ∃ opts0, keyLoop env.Quote cfg.attrs.keys [] IndexOptions.empty = .ok (doc, opts0) ∧
      opts.Unique = opts0.Unique ∧ opts.ExpireAfterSeconds = opts0.ExpireAfterSeconds := by
  unfold createIndexRequest at h
  cases hk : keyLoop env.Quote cfg.attrs.keys [] IndexOptions.empty with
  | error e => simp [hk] at h
  | ok r =>
    obtain ⟨ks, os⟩ := r
    simp only [hk] at h
    refine ⟨os, ?_⟩
    by_cases hp : cfg.attrs.partial_filter_expression.length > 0
    · simp only [hp, if_true] at h
      cases hu : env.UnmarshalExtJSON cfg.attrs.partial_filter_expression with
      | error err => simp [hu] at h
      | ok filterDoc =>
        simp only [hu, Except.ok.injEq, Prod.mk.injEq] at h
        obtain ⟨h1, h2⟩ := h
        subst h1 h2
        refine ⟨rfl, ?_, ?_⟩ <;>
          (split_ifs <;>
            simp [IndexOptions.SetHidden, IndexOptions.SetPartialFilterExpression,
              IndexOptions.SetName])
    · simp only [hp, if_false, Except.ok.injEq, Prod.mk.injEq] at h
      obtain ⟨h1, h2⟩ := h
      subst h1 h2
      refine ⟨rfl, ?_, ?_⟩ <;>
        (split_ifs <;> simp [IndexOptions.SetHidden, IndexOptions.SetName])

/-- A read that gets as far as the scan ends as the scan decides. -/
theorem read_of_lists (env : Env) (data : ResourceData) (log : List RemoteCall)
    (db collection indexName : String) (results : List M)
    (h : ReadLists env data log db collection indexName results) :
    resourceDatabaseIndexRead env data log =
      match readOuter env indexName results ⟨false, [], data⟩ with
      | none => ⟨.panic, data, log ++ [.Connect, .ListIndexes db collection]⟩
      | some st =>
        if st.indexFound = false then
          ⟨.error "index does not exist", st.data, log ++ [.Connect, .ListIndexes db collection]⟩
        else
          ⟨.ok,
            { st.data with
              attrs := { st.data.attrs with
                db := db, collection := collection, name := indexName,
                keys := st.indexKeys, timeout := st.data.attrs.timeout } },
            log ++ [.Connect, .ListIndexes db collection]⟩ := by
  obtain ⟨hc, hp, hn, hl⟩ := h
  have hid := stateID_of_parse env data db collection indexName hp
  unfold resourceDatabaseIndexRead
  simp only [hc, hid, hp, hn, hl, Bool.false_eq_true, if_false]

/-- A read that lists a descriptor stored as requested, the only one of its
name, succeeds and returns the printed key document followed by the
synthetic pairs. -/
theorem read_stored (env : Env) (data : ResourceData) (log : List RemoteCall)
    (db collection indexName : String) (results : List M) (result : M) (doc : D)
    (opts : IndexOptions)
    (hlist : ReadLists env data log db collection indexName results)
    (honly : OnlyNamed indexName result results)
    (hstored : StoredAs result indexName doc opts) :
    (resourceDatabaseIndexRead env data log).out = .ok ∧
      (resourceDatabaseIndexRead env data log).data.attrs.keys =
        doc.map (fun e => (e.1, SprintfV e.2)) ++ syntheticPairs opts := by
  rw [read_of_lists env data log db collection indexName results hlist]
  rw [readOuter_onlyNamed env indexName result results ⟨false, [], data⟩ rfl hstored.1 honly]
  obtain ⟨st1, h1, h2, h3⟩ := readMatch_stored env result indexName doc opts ⟨false, [], data⟩ hstored
  rw [h1]
  simp only [h2, Bool.true_eq_false, if_false, h3, List.nil_append, and_self]

/-! ## Decimal text -/


theorem digitVal_digitChar (k : Nat) (h : k < 10) : digitVal (Nat.digitChar k) = some k := by
  interval_cases k <;> decide

theorem digitChar_not_sign (k : Nat) (h : k < 10) :
    Nat.digitChar k ≠ '+' ∧ Nat.digitChar k ≠ '-' := by
  interval_cases k <;> decide

theorem parseUintLoop_toDigitsCore :
    ∀ (fuel n : Nat) (ds : List Char), n < fuel → n < 2 ^ 64 →
      parseUintLoop (Nat.toDigitsCore 10 fuel n ds) 0 = parseUintLoop ds n := by
  intro fuel
  induction fuel with
  | zero => intro n ds h; omega
  | succ fuel ih =>
    intro n ds hf hn
    have hmod : n % 10 < 10 := Nat.mod_lt _ (by decide)
    unfold Nat.toDigitsCore
    by_cases h0 : n / 10 = 0
    · simp only [h0, if_true]
      have hlt : n < 10 := by omega
      have hn10 : n % 10 = n := Nat.mod_eq_of_lt hlt
      rw [hn10]
      simp only [parseUintLoop, digitVal_digitChar n hlt]
      have c1 : ¬ (0 ≥ (2 ^ 64 - 1) / 10 + 1) := by omega
      have c2 : ¬ (n > 2 ^ 64 - 1) := by omega
      simp only [c1, c2, if_false, Nat.zero_mul, Nat.zero_add]
    · simp only [h0, if_false]
      rw [ih (n / 10) _ (by omega) (by omega)]
      simp only [parseUintLoop, digitVal_digitChar (n % 10) hmod]
      have e : n / 10 * 10 + n % 10 = n := by omega
      rw [e]
      have c1 : ¬ (n / 10 ≥ (2 ^ 64 - 1) / 10 + 1) := by omega
      have c2 : ¬ (n > 2 ^ 64 - 1) := by omega
      simp only [c1, c2, if_false]


/-- A digit list built with fuel left starts with a digit. -/
theorem toDigitsCore_head :
    ∀ (fuel n : Nat) (ds : List Char), 0 < fuel →
      ∃ k cs, k < 10 ∧ Nat.toDigitsCore 10 fuel n ds = Nat.digitChar k :: cs := by
  intro fuel
  induction fuel with
  | zero => intro n ds h; omega
  | succ fuel ih =>
    intro n ds _
    unfold Nat.toDigitsCore
    by_cases h0 : n / 10 = 0
    · exact ⟨n % 10, ds, Nat.mod_lt _ (by decide), by simp [h0]⟩
    · simp only [h0, if_false]
      cases fuel with
      | zero => exact ⟨n % 10, ds, Nat.mod_lt _ (by decide), by simp [Nat.toDigitsCore]⟩
      | succ fuel => exact ih _ _ (by omega)

theorem Atoi_repr (n : Nat) (h : n < 2 ^ 63) : Atoi (Nat.repr n) = .ok (n : Int) := by
  obtain ⟨k, cs, hk, hd⟩ := toDigitsCore_head (n + 1) n [] (by omega)
  have hp := parseUintLoop_toDigitsCore (n + 1) n [] (by omega) (by omega)
  obtain ⟨hplus, hminus⟩ := digitChar_not_sign k hk
  unfold Atoi Nat.repr Nat.toDigits
  simp only [List.asString]
  rw [hd] at hp ⊢
  unfold ParseInt
  simp only [hplus, hminus, or_self, if_false, ParseUint, hp, parseUintLoop]
  have c : ¬ (n ≥ 2 ^ 63) := by omega
  simp only [c]
  simp

/-! ## Inline options -/

theorem applyInline_of_not_inline (os : IndexOptions) (p : String × String)
    (h : isInlineOption p = false) : applyInline os p = os := by
  unfold isInlineOption at h
  simp only [Bool.or_eq_false_iff] at h
  simp [applyInline, h.1, h.2]

theorem int32_small (n : Nat) (h : n < 2 ^ 31) : int32 (n : Int) = (n : Int) := by
  unfold int32
  have h1 : ((n : Int) + 2 ^ 31) % 2 ^ 32 = (n : Int) + 2 ^ 31 := by
    apply Int.emod_eq_of_lt <;> omega
  rw [h1]
  omega

theorem isTTLOption_repr (n : Nat) (h : n < 2 ^ 63) :
    isTTLOption ("expireAfterSeconds", Nat.repr n) = true := by
  simp [isTTLOption, Atoi_repr n h]

theorem applyInline_ttl (o : IndexOptions) (n : Nat) (h : n < 2 ^ 31) :
    applyInline o ("expireAfterSeconds", Nat.repr n) = o.SetExpireAfterSeconds (n : Int) := by
  have h63 : n < 2 ^ 63 := by omega
  simp [applyInline, isTTLOption_repr n h63, Atoi_repr n h63, int32_small n h]

theorem foldl_applyInline_of_not_inline (keys : List (String × String)) :
    ∀ (o : IndexOptions), (∀ p ∈ keys, isInlineOption p = false) →
      keys.foldl applyInline o = o := by
  induction keys with
  | nil => intro o _; rfl
  | cons p keys ih =>
    intro o h
    simp only [List.foldl_cons]
    rw [applyInline_of_not_inline o p (h p (List.mem_cons_self _ _))]
    exact ih o fun q hq => h q (List.mem_cons_of_mem _ hq)

theorem retained_of_not_inline (keys : List (String × String))
    (h : ∀ p ∈ keys, isInlineOption p = false) : retained keys = keys := by
  unfold retained
  rw [List.filter_eq_self]
  intro p hp
  simp [h p hp]

theorem syntheticPairs_congr (o1 o2 : IndexOptions) (hu : o1.Unique = o2.Unique)
    (ht : o1.ExpireAfterSeconds = o2.ExpireAfterSeconds) :
    syntheticPairs o1 = syntheticPairs o2 := by
  unfold syntheticPairs
  rw [hu, ht]

/-- For a key sequence in read order the retained pairs followed by the
synthetic pairs of the recorded options are the sequence itself. -/
theorem readOrder_roundtrip (keys : List (String × String)) (h : ReadOrder keys) :
    retained keys ++ syntheticPairs (keys.foldl applyInline IndexOptions.empty) = keys := by
  obtain ⟨real, uniq, ttl, rfl, hreal, hu, ht⟩ := h
  have hr1 : retained (real ++ uniq ++ ttl) = real ++ retained uniq ++ retained ttl := by
    simp only [retained, List.filter_append]
    rw [show List.filter (fun p => !isInlineOption p) real = real from
      retained_of_not_inline real hreal]
  rw [hr1, List.foldl_append, List.foldl_append, foldl_applyInline_of_not_inline real _ hreal]
  have hut : isInlineOption ("unique", "true") = true := by decide
  have huf : isInlineOption ("unique", "false") = true := by decide
  have aut : ∀ o, applyInline o ("unique", "true") = o.SetUnique true := by
    intro o; simp [applyInline, show isTTLOption ("unique", "true") = false by decide,
      show isUniqueOption ("unique", "true") = true by decide,
      show ToLower "true" = "true" by decide]
  have auf : ∀ o, applyInline o ("unique", "false") = o.SetUnique false := by
    intro o; simp [applyInline, show isTTLOption ("unique", "false") = false by decide,
      show isUniqueOption ("unique", "false") = true by decide,
      show ToLower "false" ≠ "true" by decide]
  rcases hu with rfl | rfl | rfl <;> rcases ht with rfl | ⟨n, hn, rfl⟩
  · simp [retained, syntheticPairs, IndexOptions.empty]
  · have h63 : n < 2 ^ 63 := by omega
    simp [retained, isInlineOption, isTTLOption_repr n h63, applyInline_ttl _ n hn,
      syntheticPairs, IndexOptions.empty, IndexOptions.SetExpireAfterSeconds, SprintfV]
    rfl
  · simp [retained, hut, aut, syntheticPairs, IndexOptions.empty, IndexOptions.SetUnique, SprintfV]
  · have h63 : n < 2 ^ 63 := by omega
    simp [retained, hut, aut, isInlineOption, isTTLOption_repr n h63, applyInline_ttl _ n hn,
      syntheticPairs, IndexOptions.empty, IndexOptions.SetExpireAfterSeconds,
      IndexOptions.SetUnique, SprintfV]
    rfl
  · simp [retained, huf, auf, syntheticPairs, IndexOptions.empty, IndexOptions.SetUnique, SprintfV]
  · have h63 : n < 2 ^ 63 := by omega
    simp [retained, huf, auf, isInlineOption, isTTLOption_repr n h63, applyInline_ttl _ n hn,
      syntheticPairs, IndexOptions.empty, IndexOptions.SetExpireAfterSeconds,
      IndexOptions.SetUnique, SprintfV]
    rfl

theorem create_of_lists (env : Env) (cfg : ResourceData) (log : List RemoteCall) (doc : D)
    (opts : IndexOptions) (indexName : String) (results : List M)
    (h : CreateLists env cfg log doc opts indexName results) :
    resourceDatabaseIndexCreate env cfg log =
      resourceDatabaseIndexRead env
        { cfg with id := SetId env [cfg.attrs.db, cfg.attrs.collection, indexName] }
        (log ++ [.Connect,
          .CreateOne cfg.attrs.db cfg.attrs.collection doc opts cfg.attrs.timeout]) := by
  obtain ⟨hc, hr, hcr, _⟩ := h
  unfold resourceDatabaseIndexCreate createIndex
  simp only [hc, hr, hcr, List.append_assoc, List.singleton_append]

theorem isUnique_not_ttl (p : String × String) (h : isUniqueOption p = true) :
    isTTLOption p = false := by
  unfold isUniqueOption at h
  simp only [decide_eq_true_eq] at h
  unfold isTTLOption
  have hne : p.1 ≠ "expireAfterSeconds" := by
    intro he
    rw [he] at h
    exact lower_expire_ne_unique h.1
  simp [hne]

theorem applyInline_unique (o : IndexOptions) (p : String × String)
    (h : isUniqueOption p = true) :
    applyInline o p = o.SetUnique (decide (ToLower p.2 = "true")) := by
  simp [applyInline, isUnique_not_ttl p h, h]

theorem applyInline_unique_field (o : IndexOptions) (p : String × String)
    (h : isUniqueOption p = false) : (applyInline o p).Unique = o.Unique := by
  unfold applyInline
  split_ifs with h1 h2
  · cases Atoi p.2 <;> rfl
  · rw [h] at h2; cases h2
  · rfl

theorem foldl_unique_unchanged (keys : List (String × String)) :
    ∀ (o : IndexOptions), (∀ p ∈ keys, isUniqueOption p = false) →
      (keys.foldl applyInline o).Unique = o.Unique := by
  induction keys with
  | nil => intro o _; rfl
  | cons p keys ih =>
    intro o h
    simp only [List.foldl_cons]
    rw [ih _ fun q hq => h q (List.mem_cons_of_mem _ hq)]
    exact applyInline_unique_field o p (h p (List.mem_cons_self _ _))

theorem applyInline_ttl_isSome (o : IndexOptions) (p : String × String)
    (h : isTTLOption p = true ∨ o.ExpireAfterSeconds.isSome = true) :
    (applyInline o p).ExpireAfterSeconds.isSome = true := by
  unfold applyInline
  by_cases ht : isTTLOption p = true
  · rw [if_pos ht]
    unfold isTTLOption at ht
    cases ha : Atoi p.2 with
    | error e => simp [ha] at ht
    | ok n => rfl
  · rw [if_neg ht]
    have ho : o.ExpireAfterSeconds.isSome = true := h.resolve_left ht
    split_ifs <;> exact ho

theorem foldl_ttl_isSome (keys : List (String × String)) :
    ∀ (o : IndexOptions),
      ((∃ p ∈ keys, isTTLOption p = true) ∨ o.ExpireAfterSeconds.isSome = true) →
      (keys.foldl applyInline o).ExpireAfterSeconds.isSome = true := by
  induction keys with
  | nil =>
    intro o h
    rcases h with ⟨p, hp, _⟩ | h
    · cases hp
    · exact h
  | cons q keys ih =>
    intro o h
    simp only [List.foldl_cons]
    apply ih
    rcases h with ⟨p, hp, ht⟩ | h
    · rcases List.mem_cons.mp hp with rfl | hp
      · exact Or.inr (applyInline_ttl_isSome o p (Or.inl ht))
      · exact Or.inl ⟨p, hp, ht⟩
    · exact Or.inr (applyInline_ttl_isSome o q (Or.inr h))

/-- An inline pair adds nothing to the key document: the loop over the
sequence without the pair builds the same document. -/
theorem keyLoop_without_inline (q : String → String) (pre post : List (String × String))
    (p : String × String) (doc : D) (opts0 : IndexOptions) (hp : isInlineOption p = true)
    (h : keyLoop q (pre ++ p :: post) [] IndexOptions.empty = .ok (doc, opts0)) :
    ∃ opts1, keyLoop q (pre ++ post) [] IndexOptions.empty = .ok (doc, opts1) := by
  obtain ⟨hno, hr⟩ := keyLoop_result q _ [] IndexOptions.empty _ h
  have hno2 : ∀ x ∈ pre ++ post, malformedTTL x = false := by
    intro x hx
    apply hno
    rcases List.mem_append.mp hx with hx | hx
    · exact List.mem_append_left _ hx
    · exact List.mem_append_right _ (List.mem_cons_of_mem _ hx)
  refine ⟨(pre ++ post).foldl applyInline IndexOptions.empty, ?_⟩
  rw [keyLoop_ok q (pre ++ post) [] IndexOptions.empty hno2]
  simp only [Prod.mk.injEq] at hr
  rw [hr.1]
  simp [retained, List.filter_append, List.filter_cons, hp]

/-! ## Identity -/

theorem ParseId_SetId (env : Env) (db collection name : String)
    (h1 : env.sep ∉ db.data) (h2 : env.sep ∉ collection.data) (h3 : env.sep ∉ name.data) :
    ParseId env (SetId env [db, collection, name]) 3 = ([db, collection, name], none) := by
  have hs : ([env.sep].intercalate [db.data, collection.data, name.data]).splitOn env.sep =
      [db.data, collection.data, name.data] := by
    apply List.splitOn_intercalate
    · intro l hl
      simp only [List.mem_cons, List.mem_singleton, List.not_mem_nil, or_false] at hl
      rcases hl with rfl | rfl | rfl <;> assumption
    · simp
  unfold ParseId SetId
  simp only [List.map_cons, List.map_nil, hs]
  rfl

/-! ## Errors of create -/

theorem length_pos_of_ne_empty (s : String) (h : s ≠ "") : s.length > 0 := by
  obtain ⟨l⟩ := s
  cases l with
  | nil => exact absurd rfl h
  | cons c cs => simp [String.length]

theorem createIndexRequest_error (env : Env) (data : ResourceData)
    (h : (∃ v, ("expireAfterSeconds", v) ∈ data.attrs.keys ∧ ∃ e, Atoi v = .error e) ∨
      (data.attrs.partial_filter_expression ≠ "" ∧
        ∃ e, env.UnmarshalExtJSON data.attrs.partial_filter_expression = .error e)) :
    ∃ e, createIndexRequest env data = .error e := by
  unfold createIndexRequest
  rcases h with ⟨v, hmem, e, he⟩ | ⟨hne, e, he⟩
  · have hm : malformedTTL ("expireAfterSeconds", v) = true := by simp [malformedTTL, he]
    obtain ⟨e2, h2⟩ := keyLoop_error env.Quote data.attrs.keys [] IndexOptions.empty ⟨_, hmem, hm⟩
    exact ⟨e2, by simp [h2]⟩
  · cases hk : keyLoop env.Quote data.attrs.keys [] IndexOptions.empty with
    | error e2 => exact ⟨e2, rfl⟩
    | ok r =>
      obtain ⟨ks, os⟩ := r
      have hl := length_pos_of_ne_empty _ hne
      exact ⟨"Invalid partial_filter_expression JSON: " ++ e, by simp [hl, he]⟩

/-! ## Outcomes of the scan -/

theorem readMatch_found (env : Env) (result : M) (st st1 : Scan)
    (h : readMatch env result st = some st1) : st1.indexFound = true := by
  unfold readMatch at h
  split at h
  · simp only [Option.some.injEq] at h
    rw [← h]
  · cases h

theorem readInner_found (env : Env) (indexName : String) (result : M) :
    ∀ (entries : List (String × Any)) (st st1 : Scan),
      (("name", Any.scalar (Scalar.str indexName)) ∈ entries ∨ st.indexFound = true) →
      readInner env indexName result entries st = some st1 → st1.indexFound = true := by
  intro entries
  induction entries with
  | nil =>
    intro st st1 h hr
    rcases h with h | h
    · cases h
    · simp only [readInner, Option.some.injEq] at hr
      rw [← hr]; exact h
  | cons e entries ih =>
    intro st st1 h hr
    obtain ⟨k, v⟩ := e
    unfold readInner at hr
    by_cases hm : k = "name" ∧ v = Any.scalar (Scalar.str indexName)
    · rw [if_pos hm] at hr
      exact readMatch_found env result st st1 hr
    · rw [if_neg hm] at hr
      by_cases hf : st.indexFound = true
      · rw [if_pos hf] at hr
        simp only [Option.some.injEq] at hr
        rw [← hr]; exact hf
      · rw [if_neg hf] at hr
        apply ih st st1 _ hr
        rcases h with h | h
        · rcases List.mem_cons.mp h with h | h
          · exfalso
            apply hm
            simp only [Prod.mk.injEq] at h
            exact ⟨h.1.symm, h.2.symm⟩
          · exact Or.inl h
        · exact absurd h hf

theorem readOuter_found (env : Env) (indexName : String) :
    ∀ (results : List M) (st st1 : Scan),
      ((∃ m ∈ results, hasName indexName m) ∨ st.indexFound = true) →
      readOuter env indexName results st = some st1 → st1.indexFound = true := by
  intro results
  induction results with
  | nil =>
    intro st st1 h hr
    rcases h with ⟨m, hm, _⟩ | h
    · cases hm
    · simp only [readOuter, Option.some.injEq] at hr
      rw [← hr]; exact h
  | cons m results ih =>
    intro st st1 h hr
    unfold readOuter at hr
    cases hi : readInner env indexName m m st with
    | none => simp [hi] at hr
    | some st2 =>
      simp only [hi] at hr
      apply ih st2 st1 _ hr
      rcases h with ⟨m2, hm2, hn⟩ | h
      · rcases List.mem_cons.mp hm2 with rfl | hm2
        · exact Or.inr (readInner_found env indexName m2 m2 st st2 (Or.inl hn) hi)
        · exact Or.inl ⟨m2, hm2, hn⟩
      · exact Or.inr (readInner_found env indexName m m st st2 (Or.inr h) hi)

theorem notFound_ne_connect (e : String) :
    "index does not exist" ≠ "Error connecting to database : " ++ e ++ " " := by
  intro h
  have h2 := congrArg (fun s => s.data.head?) h
  simp [String.data_append] at h2

theorem notFound_ne_list (e : String) :
    "index does not exist" ≠ "Failed to list indexes: " ++ e := by
  intro h
  have h2 := congrArg (fun s => s.data.head?) h
  simp [String.data_append] at h2

/-! ## Calls of the read -/

/-- The calls of a read: the connection, then at most the listing of the
collection the identity names; a read that succeeds has written the three
components of the identity. -/
theorem read_calls (env : Env) (data : ResourceData) (log : List RemoteCall) :
    ((resourceDatabaseIndexRead env data log).log = log ++ [.Connect] ∧
      (resourceDatabaseIndexRead env data log).out ≠ .ok) ∨
    ((resourceDatabaseIndexRead env data log).log =
        log ++ [.Connect, .ListIndexes (resourceDatabaseIndexParseId env data.id).1
          (resourceDatabaseIndexParseId env data.id).2.1] ∧
      ((resourceDatabaseIndexRead env data log).out = .ok →
        (resourceDatabaseIndexRead env data log).data.attrs.db =
          (resourceDatabaseIndexParseId env data.id).1 ∧
        (resourceDatabaseIndexRead env data log).data.attrs.collection =
          (resourceDatabaseIndexParseId env data.id).2.1 ∧
        (resourceDatabaseIndexRead env data log).data.attrs.name =
          (resourceDatabaseIndexParseId env data.id).2.2.1)) := by
  unfold resourceDatabaseIndexRead
  cases hc : env.MongoClientInit log with
  | some ce => left; simp
  | none =>
    cases hs : data.StateID with
    | none => left; simp
    | some stateID =>
    have hx := stateID_some data stateID hs
    subst hx
    rcases hp : resourceDatabaseIndexParseId env data.id with ⟨db, coll, name, err⟩
    simp only [hp]
    cases err with
    | some e => left; simp
    | none =>
      by_cases hn : env.CollectionIsNil db coll = true
      · left; simp [hn]
      · right
        simp only [hn, Bool.false_eq_true, if_false]
        cases hl : env.ListIndexes (log ++ [.Connect]) db coll with
        | error e => simp
        | ok results =>
          cases hr : readOuter env name results ⟨false, [], data⟩ with
          | none => simp [hr]
          | some st =>
            by_cases hf : st.indexFound = false
            · simp [hr, hf]
            · simp [hr, hf]



theorem read_calls_not_mutating (env : Env) (data : ResourceData) (log : List RemoteCall) :
    ∃ calls, (resourceDatabaseIndexRead env data log).log = log ++ calls ∧
      (∀ c ∈ calls, c.mutating = false) ∧
      ∀ c ∈ calls, c.uses (resourceDatabaseIndexParseId env data.id).1
        (resourceDatabaseIndexParseId env data.id).2.1
        (resourceDatabaseIndexParseId env data.id).2.2.1 := by
  rcases read_calls env data log with ⟨h, _⟩ | ⟨h, _⟩
  · refine ⟨[.Connect], h, ?_, ?_⟩ <;>
      (intro c hc; simp only [List.mem_singleton] at hc; subst hc)
    · rfl
    · exact True.intro
  · refine ⟨_, h, ?_, ?_⟩ <;>
      (intro c hc
       simp only [List.mem_cons, List.mem_singleton, List.not_mem_nil, or_false] at hc
       rcases hc with rfl | rfl)
    · rfl
    · rfl
    · exact True.intro
    · exact ⟨rfl, rfl⟩

/-! ## The two paths of update -/

theorem update_unchanged (env : Env) (data : ResourceData) (log : List RemoteCall)
    (h : data.prior.hidden = data.attrs.hidden) :
    resourceDatabaseIndexUpdate env data log = resourceDatabaseIndexRead env data log := by
  unfold resourceDatabaseIndexUpdate ResourceData.HasChangeHidden
  simp [h]

theorem update_changed (env : Env) (data : ResourceData) (log : List RemoteCall)
    (db collection name : String)
    (h : data.prior.hidden ≠ data.attrs.hidden) (hc : env.MongoClientInit log = none)
    (hp : resourceDatabaseIndexParseId env data.id = (db, collection, name, none)) :
    resourceDatabaseIndexUpdate env data log =
      match env.RunCommand (log ++ [.Connect]) db collection name data.attrs.hidden with
      | some err =>
        ⟨.error ("Failed to update index hidden state: " ++ err), data,
          log ++ [.Connect, .RunCommand db collection name data.attrs.hidden]⟩
      | none =>
        resourceDatabaseIndexRead env data
          (log ++ [.Connect, .RunCommand db collection name data.attrs.hidden]) := by
  have hid := stateID_of_parse env data db collection name hp
  unfold resourceDatabaseIndexUpdate ResourceData.HasChangeHidden
  simp [h, hc, hid, hp]

theorem read_uses_identity (env : Env) (data : ResourceData) (log : List RemoteCall) :
    (∃ calls, (resourceDatabaseIndexRead env data log).log = log ++ calls ∧
      ∀ c ∈ calls, c.uses (parsedDb env data) (parsedCollection env data) (parsedName env data)) ∧
    ((resourceDatabaseIndexRead env data log).out = .ok →
      (resourceDatabaseIndexRead env data log).data.attrs.db = parsedDb env data ∧
      (resourceDatabaseIndexRead env data log).data.attrs.collection =
        parsedCollection env data ∧
      (resourceDatabaseIndexRead env data log).data.attrs.name = parsedName env data) := by
  constructor
  · obtain ⟨calls, h1, _, h3⟩ := read_calls_not_mutating env data log
    exact ⟨calls, h1, h3⟩
  · intro hok
    rcases read_calls env data log with ⟨_, h⟩ | ⟨_, h⟩
    · exact absurd hok h
    · exact h hok

/-! ## What a read leaves alone -/

theorem readMatch_frame (env : Env) (result : M) (st st1 : Scan)
    (h : readMatch env result st = some st1) :
    st1.data.id = st.data.id ∧ st1.data.prior = st.data.prior ∧
      st1.data.attrs.timeout = st.data.attrs.timeout := by
  unfold readMatch at h
  split at h
  · simp only [Option.some.injEq] at h
    rw [← h]
    simp only [ResourceData.SetHidden, ResourceData.SetPartialFilterExpression]
    split <;> split <;> (try split) <;> simp
  · cases h

theorem readInner_frame (env : Env) (indexName : String) (result : M) :
    ∀ (entries : List (String × Any)) (st st1 : Scan),
      readInner env indexName result entries st = some st1 →
      st1.data.id = st.data.id ∧ st1.data.prior = st.data.prior ∧
        st1.data.attrs.timeout = st.data.attrs.timeout := by
  intro entries
  induction entries with
  | nil =>
    intro st st1 h
    simp only [readInner, Option.some.injEq] at h
    rw [← h]; exact ⟨rfl, rfl, rfl⟩
  | cons e entries ih =>
    intro st st1 h
    obtain ⟨k, v⟩ := e
    unfold readInner at h
    split_ifs at h with h1 h2
    · exact readMatch_frame env result st st1 h
    · simp only [Option.some.injEq] at h
      rw [← h]; exact ⟨rfl, rfl, rfl⟩
    · exact ih st st1 h

theorem readOuter_frame (env : Env) (indexName : String) :
    ∀ (results : List M) (st st1 : Scan),
      readOuter env indexName results st = some st1 →
      st1.data.id = st.data.id ∧ st1.data.prior = st.data.prior ∧
        st1.data.attrs.timeout = st.data.attrs.timeout := by
  intro results
  induction results with
  | nil =>
    intro st st1 h
    simp only [readOuter, Option.some.injEq] at h
    rw [← h]; exact ⟨rfl, rfl, rfl⟩
  | cons m results ih =>
    intro st st1 h
    unfold readOuter at h
    cases hi : readInner env indexName m m st with
    | none => simp [hi] at h
    | some st2 =>
      simp only [hi] at h
      obtain ⟨a1, a2, a3⟩ := readInner_frame env indexName m m st st2 hi
      obtain ⟨b1, b2, b3⟩ := ih st2 st1 h
      exact ⟨b1.trans a1, b2.trans a2, b3.trans a3⟩

/-- A read never touches the identity, the recorded values or the timeout. -/
theorem read_frame (env : Env) (data : ResourceData) (log : List RemoteCall) :
    (resourceDatabaseIndexRead env data log).data.id = data.id ∧
    (resourceDatabaseIndexRead env data log).data.prior = data.prior ∧
    (resourceDatabaseIndexRead env data log).data.attrs.timeout = data.attrs.timeout := by
  unfold resourceDatabaseIndexRead
  cases hc : env.MongoClientInit log with
  | some ce => exact ⟨rfl, rfl, rfl⟩
  | none =>
    cases hs : data.StateID with
    | none => exact ⟨rfl, rfl, rfl⟩
    | some stateID =>
    rcases hp : resourceDatabaseIndexParseId env stateID with ⟨db, coll, name, err⟩
    simp only [hp]
    cases err with
    | some e => exact ⟨rfl, rfl, rfl⟩
    | none =>
      simp only
      by_cases hn : env.CollectionIsNil db coll = true
      · simp only [hn, if_true, and_self]
      · simp only [hn, Bool.false_eq_true, if_false]
        cases hl : env.ListIndexes (log ++ [.Connect]) db coll with
        | error e => simp only [hl, and_self]
        | ok results =>
          simp only [hl]
          cases hr : readOuter env name results ⟨false, [], data⟩ with
          | none => simp only [hr, and_self]
          | some st =>
            obtain ⟨a1, a2, a3⟩ := readOuter_frame env name results _ st hr
            simp only [hr]
            by_cases hf : st.indexFound = false
            · simp only [hf, if_true]
              exact ⟨a1, a2, a3⟩
            · simp only [hf, if_false]
              exact ⟨a1, a2, a3⟩

/-! ## Keys that are all inline options -/

theorem inline_not_malformed (p : String × String) (h : isInlineOption p = true) :
    malformedTTL p = false := by
  unfold isInlineOption at h
  unfold malformedTTL
  rcases Bool.or_eq_true_iff.mp h with ht | hu
  · unfold isTTLOption at ht
    cases ha : Atoi p.2 with
    | error e => simp [ha] at ht
    | ok n => simp
  · have := isUnique_not_ttl p hu
    unfold isUniqueOption at hu
    simp only [decide_eq_true_eq] at hu
    have hne : p.1 ≠ "expireAfterSeconds" := by
      intro he
      rw [he] at hu
      exact lower_expire_ne_unique hu.1
    simp [hne]

theorem retained_of_all_inline (keys : List (String × String))
    (h : ∀ p ∈ keys, isInlineOption p = true) : retained keys = [] := by
  unfold retained
  rw [List.filter_eq_nil_iff]
  intro p hp
  simp [h p hp]

/-- The request `createIndex` builds from keys that are all inline options
has an empty key document. -/
theorem createIndexRequest_all_inline (env : Env) (data : ResourceData) (doc : D)
    (opts : IndexOptions) (h : ∀ p ∈ data.attrs.keys, isInlineOption p = true)
    (hreq : createIndexRequest env data = .ok (doc, opts)) : doc = [] := by
  obtain ⟨opts0, hk, _, _⟩ := createIndexRequest_keyLoop env data doc opts hreq
  obtain ⟨_, hr⟩ := keyLoop_result env.Quote data.attrs.keys [] IndexOptions.empty _ hk
  simp only [Prod.mk.injEq, List.nil_append] at hr
  rw [hr.1, retained_of_all_inline _ h]
  rfl

theorem unique_field_not_expire (f : String) (hf : ToLower f = "unique") :
    f ≠ "expireAfterSeconds" := by
  intro he
  rw [he] at hf
  exact lower_expire_ne_unique hf

/-! ## Reads of one identity -/

theorem readMatch_view (env : Env) (result : M) (st st2 : Scan)
    (hk : st.indexKeys = st2.indexKeys) :
    (readMatch env result st).map (fun s => (s.indexFound, s.indexKeys)) =
      (readMatch env result st2).map (fun s => (s.indexFound, s.indexKeys)) := by
  unfold readMatch
  cases hkey : mapGet result "key" with
  | none => rfl
  | some kv =>
    cases kv with
    | scalar s => rfl
    | other t => rfl
    | d doc => simp [hk]

theorem readInner_view (env : Env) (indexName : String) (result : M) :
    ∀ (entries : List (String × Any)) (st st2 : Scan),
      st.indexFound = st2.indexFound → st.indexKeys = st2.indexKeys →
      (readInner env indexName result entries st).map (fun s => (s.indexFound, s.indexKeys)) =
        (readInner env indexName result entries st2).map
          (fun s => (s.indexFound, s.indexKeys)) := by
  intro entries
  induction entries with
  | nil => intro st st2 hf hk; simp [readInner, hf, hk]
  | cons e entries ih =>
    intro st st2 hf hk
    obtain ⟨k, v⟩ := e
    unfold readInner
    by_cases hm : k = "name" ∧ v = Any.scalar (Scalar.str indexName)
    · rw [if_pos hm, if_pos hm]
      exact readMatch_view env result st st2 hk
    · rw [if_neg hm, if_neg hm, ← hf]
      by_cases hfound : st.indexFound = true
      · rw [if_pos hfound, if_pos hfound]
        simp [hf, hk]
      · rw [if_neg hfound, if_neg hfound]
        exact ih st st2 hf hk

theorem readOuter_view (env : Env) (indexName : String) :
    ∀ (results : List M) (st st2 : Scan),
      st.indexFound = st2.indexFound → st.indexKeys = st2.indexKeys →
      (readOuter env indexName results st).map (fun s => (s.indexFound, s.indexKeys)) =
        (readOuter env indexName results st2).map (fun s => (s.indexFound, s.indexKeys)) := by
  intro results
  induction results with
  | nil => intro st st2 hf hk; simp [readOuter, hf, hk]
  | cons m results ih =>
    intro st st2 hf hk
    have hi := readInner_view env indexName m m st st2 hf hk
    unfold readOuter
    cases h1 : readInner env indexName m m st with
    | none =>
      cases h2 : readInner env indexName m m st2 with
      | none => rfl
      | some s2 => simp [h1, h2] at hi
    | some s1 =>
      cases h2 : readInner env indexName m m st2 with
      | none => simp [h1, h2] at hi
      | some s2 =>
        simp only [h1, h2, Option.map_some', Option.some.injEq, Prod.mk.injEq] at hi
        exact ih s1 s2 hi.1 hi.2

/-- Two reads of the same identity after the same calls end alike and write
the same `db`, `collection`, `name` and `keys`; each keeps the timeout it
had. -/
theorem read_same_identity (env : Env) (data data2 : ResourceData) (log : List RemoteCall)
    (hid : data.id = data2.id) :
    (resourceDatabaseIndexRead env data log).out = (resourceDatabaseIndexRead env data2 log).out ∧
    (resourceDatabaseIndexRead env data log).log = (resourceDatabaseIndexRead env data2 log).log ∧
    ((resourceDatabaseIndexRead env data log).out = .ok →
      (resourceDatabaseIndexRead env data log).data.attrs.db =
        (resourceDatabaseIndexRead env data2 log).data.attrs.db ∧
      (resourceDatabaseIndexRead env data log).data.attrs.collection =
        (resourceDatabaseIndexRead env data2 log).data.attrs.collection ∧
      (resourceDatabaseIndexRead env data log).data.attrs.name =
        (resourceDatabaseIndexRead env data2 log).data.attrs.name ∧
      (resourceDatabaseIndexRead env data log).data.attrs.keys =
        (resourceDatabaseIndexRead env data2 log).data.attrs.keys) ∧
    (resourceDatabaseIndexRead env data log).data.attrs.timeout = data.attrs.timeout ∧
    (resourceDatabaseIndexRead env data2 log).data.attrs.timeout = data2.attrs.timeout := by
  refine ⟨?_, ?_, ?_, (read_frame env data log).2.2, (read_frame env data2 log).2.2⟩
  all_goals
    unfold resourceDatabaseIndexRead ResourceData.StateID
    rw [← hid]
    cases hc : env.MongoClientInit log with
    | some ce => simp
    | none =>
      by_cases he : data.id = ""
      · simp [he]
      · simp only [he, if_false]
        rcases hp : resourceDatabaseIndexParseId env data.id with ⟨db, coll, name, err⟩
        cases err with
        | some e => simp
        | none =>
          simp only
          by_cases hn : env.CollectionIsNil db coll = true
          · simp [hn]
          · simp only [hn, Bool.false_eq_true, if_false]
            cases hl : env.ListIndexes (log ++ [.Connect]) db coll with
            | error e => simp
            | ok results =>
              have hv := readOuter_view env name results ⟨false, [], data⟩ ⟨false, [], data2⟩
                rfl rfl
              simp only
              cases h1 : readOuter env name results ⟨false, [], data⟩ with
              | none =>
                cases h2 : readOuter env name results ⟨false, [], data2⟩ with
                | none => simp
                | some s2 => simp [h1, h2] at hv
              | some s1 =>
                cases h2 : readOuter env name results ⟨false, [], data2⟩ with
                | none => simp [h1, h2] at hv
                | some s2 =>
                  simp only [h1, h2, Option.map_some', Option.some.injEq, Prod.mk.injEq] at hv
                  obtain ⟨hf, hk⟩ := hv
                  by_cases hfound : s1.indexFound = false
                  · have hfound2 : s2.indexFound = false := by rw [← hf]; exact hfound
                    simp [hfound, hfound2]
                  · have hfound2 : ¬ s2.indexFound = false := by rw [← hf]; exact hfound
                    simp [hfound, hfound2, hk]



/-- A TTL value from 0 to `2^31 - 1` is recorded as it is. -/
theorem keyStep_ttl_in_range (q : String → String) (ks : D) (os : IndexOptions) (v : String)
    (n : Int) (hv : Atoi v = .ok n) (h0 : 0 ≤ n) (h1 : n < 2 ^ 31) :
    keyStep q ks os "expireAfterSeconds" v = .ok (ks, os.SetExpireAfterSeconds n) := by
  have h32 : int32 n = n := by
    unfold int32
    have e : (n + 2 ^ 31) % 2 ^ 32 = n + 2 ^ 31 := by
      apply Int.emod_eq_of_lt <;> omega
    rw [e]
    omega
  unfold keyStep
  simp [hv, h0, h32]

/-! ## A server that rejects empty key documents -/

theorem storingServer_rejectsEmptyKeys : RejectsEmptyKeys storingServer := by
  intro log db collection opts timeout
  exact ⟨"Index keys cannot be empty.", rfl⟩

/-! ## The claims -/

/-- C1: a finished iteration of the key loop of `createIndex` either extracts
the pair as an inline option and leaves the key document as it was, or
appends exactly `(field, typedValue value)` and leaves the options as they
were. `typedValue` is a function of the value alone that decides in the fixed
order `"1"`, `"-1"`, `"true"`, `"false"`, raw string. -/
theorem createIndex_typing_ladder (q : String → String) (ks : D) (os : IndexOptions)
    (f v : String) (ks1 : D) (os1 : IndexOptions)
    (h : keyStep q ks os f v = .ok (ks1, os1)) :
    ((isInlineOption (f, v) = true ∧ ks1 = ks) ∨
      (isInlineOption (f, v) = false ∧ ks1 = ks ++ [(f, typedValue v)] ∧ os1 = os)) ∧
    typedValue "1" = Scalar.int 1 ∧ typedValue "-1" = Scalar.int (-1) ∧
    typedValue "true" = Scalar.bool true ∧ typedValue "false" = Scalar.bool false ∧
    (v ≠ "1" → v ≠ "-1" → v ≠ "true" → v ≠ "false" → typedValue v = Scalar.str v) := by
  have hm : malformedTTL (f, v) = false := by
    by_contra hc
    have hc2 : malformedTTL (f, v) = true := by simpa using hc
    obtain ⟨e, he⟩ := keyStep_malformed q ks os f v hc2
    rw [he] at h
    cases h
  rw [keyStep_ok q ks os f v hm] at h
  simp only [Except.ok.injEq, Prod.mk.injEq] at h
  obtain ⟨h1, h2⟩ := h
  refine ⟨?_, by decide, by decide, by decide, by decide, ?_⟩
  · by_cases hi : isInlineOption (f, v) = true
    · left
      rw [if_pos hi] at h1
      exact ⟨hi, h1.symm⟩
    · right
      have hi2 : isInlineOption (f, v) = false := by simpa using hi
      rw [if_neg hi] at h1
      rw [applyInline_of_not_inline os (f, v) hi2] at h2
      exact ⟨hi2, h1.symm, h2.symm⟩
  · intro n1 n2 n3 n4
    simp [typedValue, n1, n2, n3, n4]

theorem createIndex_typing_ladder_witness :
    keyStep (fun s => s) [] IndexOptions.empty "field_b" "-1" =
      .ok ([("field_b", Scalar.int (-1))], IndexOptions.empty) ∧
    ((isInlineOption ("field_b", "-1") = true ∧ [("field_b", Scalar.int (-1))] = ([] : D)) ∨
      (isInlineOption ("field_b", "-1") = false ∧
        [("field_b", Scalar.int (-1))] = ([] : D) ++ [("field_b", typedValue "-1")] ∧
        IndexOptions.empty = IndexOptions.empty)) :=
  ⟨by decide,
    (createIndex_typing_ladder (fun s => s) [] IndexOptions.empty "field_b" "-1"
      [("field_b", Scalar.int (-1))] IndexOptions.empty (by decide)).1⟩

/-- C2: when `createIndex` has built its request from the configured keys
and the server lists the index back exactly as requested, the read succeeds
and its keys are the configured pairs that went into the key document, in
input order with the same field and value strings, followed only by the
synthetic `unique` and `expireAfterSeconds` pairs; printing a typed value
gives back the configured text. -/
theorem read_returns_key_pairs_in_order (env : Env) (cfg data : ResourceData)
    (log : List RemoteCall) (db collection indexName : String) (results : List M) (result : M)
    (doc : D) (opts : IndexOptions)
    (hreq : createIndexRequest env cfg = .ok (doc, opts))
    (hstored : StoredAs result indexName doc opts)
    (hlist : ReadLists env data log db collection indexName results)
    (honly : OnlyNamed indexName result results) :
    doc = (retained cfg.attrs.keys).map typedPair ∧
    (resourceDatabaseIndexRead env data log).out = .ok ∧
    (resourceDatabaseIndexRead env data log).data.attrs.keys =
      retained cfg.attrs.keys ++ syntheticPairs opts ∧
    (∀ v, SprintfV (typedValue v) = v) := by
  obtain ⟨opts0, hk, _, _⟩ := createIndexRequest_keyLoop env cfg doc opts hreq
  obtain ⟨_, hr⟩ := keyLoop_result env.Quote cfg.attrs.keys [] IndexOptions.empty _ hk
  simp only [Prod.mk.injEq, List.nil_append] at hr
  obtain ⟨hdoc, _⟩ := hr
  obtain ⟨hout, hkeys⟩ :=
    read_stored env data log db collection indexName results result doc opts hlist honly hstored
  refine ⟨hdoc, hout, ?_, Sprintf_typedValue⟩
  rw [hkeys, hdoc, print_typedPair]

theorem read_returns_key_pairs_in_order_witness :
    (resourceDatabaseIndexRead storingServer (created compoundKeys) compoundLog).data.attrs.keys =
      retained compoundKeys ++ syntheticPairs namedOpts :=
  (read_returns_key_pairs_in_order storingServer (config "mydb" "mycoll" compoundKeys "idx1")
    (created compoundKeys) compoundLog "mydb" "mycoll" "idx1"
    [idIndex, storeIndex "idx1" compoundDoc namedOpts] (storeIndex "idx1" compoundDoc namedOpts)
    compoundDoc namedOpts (by decide) (by decide)
    ⟨by decide, by decide, by decide, by decide⟩
    ⟨[idIndex], [], rfl, by decide⟩).2.2.1

/-- C3, as stated, fails: with the `unique` pair configured before the key
field, create followed by read on a server that stores the index as
requested succeeds and returns the pairs in another order than configured. -/
theorem create_read_moves_inline_pair :
    (resourceDatabaseIndexCreate storingServer
      (config "mydb" "mycoll" uniqueFirstKeys "idx1") []).out = .ok ∧
    (resourceDatabaseIndexCreate storingServer
      (config "mydb" "mycoll" uniqueFirstKeys "idx1") []).data.attrs.keys =
        [("a", "1"), ("unique", "true")] ∧
    (resourceDatabaseIndexCreate storingServer
      (config "mydb" "mycoll" uniqueFirstKeys "idx1") []).data.attrs.keys ≠
        (config "mydb" "mycoll" uniqueFirstKeys "idx1").attrs.keys := by
  decide

/-- C3, amended: for a configured key sequence in read order (real key
pairs, then at most one pair `unique` with value `true` or `false`, then at
most one pair `expireAfterSeconds` with the plain decimal text of a number
below `2^31`), create followed by read against a server that stores the
index as requested succeeds with a keys attribute equal to the configured
sequence. -/
theorem create_read_returns_configured_keys (env : Env) (cfg : ResourceData)
    (log : List RemoteCall) (doc : D) (opts : IndexOptions) (indexName : String)
    (results : List M) (result : M)
    (horder : ReadOrder cfg.attrs.keys)
    (hrun : CreateLists env cfg log doc opts indexName results)
    (honly : OnlyNamed indexName result results)
    (hstored : StoredAs result indexName doc opts) :
    (resourceDatabaseIndexCreate env cfg log).out = .ok ∧
    (resourceDatabaseIndexCreate env cfg log).data.attrs.keys = cfg.attrs.keys := by
  rw [create_of_lists env cfg log doc opts indexName results hrun]
  obtain ⟨_, hreq, _, hlist⟩ := hrun
  obtain ⟨opts0, hk, hu, ht⟩ := createIndexRequest_keyLoop env cfg doc opts hreq
  obtain ⟨_, hr⟩ := keyLoop_result env.Quote cfg.attrs.keys [] IndexOptions.empty _ hk
  simp only [Prod.mk.injEq, List.nil_append] at hr
  obtain ⟨hdoc, hopts⟩ := hr
  obtain ⟨hout, hkeys⟩ :=
    read_stored env _ _ _ _ indexName results result doc opts hlist honly hstored
  refine ⟨hout, ?_⟩
  rw [hkeys, hdoc, print_typedPair, syntheticPairs_congr opts opts0 hu ht, hopts]
  exact readOrder_roundtrip cfg.attrs.keys horder

theorem create_read_returns_configured_keys_witness :
    (resourceDatabaseIndexCreate storingServer
      (config "mydb" "mycoll" uniqueKeys "idx1") []).data.attrs.keys = uniqueKeys :=
  (create_read_returns_configured_keys storingServer (config "mydb" "mycoll" uniqueKeys "idx1")
    [] uniqueDoc uniqueOpts "idx1" [idIndex, storeIndex "idx1" uniqueDoc uniqueOpts]
    (storeIndex "idx1" uniqueDoc uniqueOpts)
    ⟨[("entity_type", "1"), ("entity_id", "1"), ("profile_type", "1")], [("unique", "true")], [],
      rfl, by decide, Or.inr (Or.inl rfl), Or.inl rfl⟩
    ⟨by decide, by decide, by decide, by decide, by decide, by decide, by decide⟩
    ⟨[idIndex], [], rfl, by decide⟩ (by decide)).2

/-- C4: a pair named `expireAfterSeconds` whose value parses as an integer
that is not negative adds nothing to the key document `createIndex` builds
(the document is the one built from the sequence without the pair), and a
read of the index stored from that request succeeds with a keys list that
holds a pair of field `expireAfterSeconds`. -/
theorem ttl_pair_is_option_and_read_back (env : Env) (cfg data : ResourceData)
    (log : List RemoteCall) (db collection indexName : String) (results : List M) (result : M)
    (doc : D) (opts : IndexOptions) (pre post : List (String × String)) (v : String) (n : Int)
    (hkeys : cfg.attrs.keys = pre ++ ("expireAfterSeconds", v) :: post)
    (hv : Atoi v = .ok n) (hn : 0 ≤ n)
    (hreq : createIndexRequest env cfg = .ok (doc, opts))
    (hstored : StoredAs result indexName doc opts)
    (hlist : ReadLists env data log db collection indexName results)
    (honly : OnlyNamed indexName result results) :
    (∃ opts1, keyLoop env.Quote (pre ++ post) [] IndexOptions.empty = .ok (doc, opts1)) ∧
    (resourceDatabaseIndexRead env data log).out = .ok ∧
    ∃ t, ("expireAfterSeconds", t) ∈ (resourceDatabaseIndexRead env data log).data.attrs.keys := by
  have httl : isTTLOption ("expireAfterSeconds", v) = true := by
    simp [isTTLOption, hv, hn]
  have hinl : isInlineOption ("expireAfterSeconds", v) = true := by
    simp [isInlineOption, httl]
  obtain ⟨opts0, hk, _, ht⟩ := createIndexRequest_keyLoop env cfg doc opts hreq
  rw [hkeys] at hk
  obtain ⟨_, hr⟩ := keyLoop_result env.Quote _ [] IndexOptions.empty _ hk
  simp only [Prod.mk.injEq] at hr
  have hsome : opts.ExpireAfterSeconds.isSome = true := by
    rw [ht, hr.2]
    exact foldl_ttl_isSome _ _ (Or.inl ⟨_, List.mem_append_right _ (List.mem_cons_self _ _), httl⟩)
  obtain ⟨hout, hread⟩ :=
    read_stored env data log db collection indexName results result doc opts hlist honly hstored
  refine ⟨keyLoop_without_inline env.Quote pre post _ doc opts0 hinl hk, hout, ?_⟩
  rw [hread]
  cases he : opts.ExpireAfterSeconds with
  | none => simp [he] at hsome
  | some m =>
    refine ⟨SprintfV (Scalar.int m), ?_⟩
    apply List.mem_append_right
    unfold syntheticPairs
    rw [he]
    simp

theorem ttl_pair_is_option_and_read_back_witness :
    ∃ t, ("expireAfterSeconds", t) ∈
      (resourceDatabaseIndexRead storingServer (created ttlKeys)
        (createLog ttlDoc ttlOpts)).data.attrs.keys :=
  (ttl_pair_is_option_and_read_back storingServer (config "mydb" "mycoll" ttlKeys "idx1")
    (created ttlKeys) (createLog ttlDoc ttlOpts) "mydb" "mycoll" "idx1"
    [idIndex, storeIndex "idx1" ttlDoc ttlOpts] (storeIndex "idx1" ttlDoc ttlOpts)
    ttlDoc ttlOpts [("created_at", "1")] [] "3600" 3600 rfl (by decide) (by decide)
    (by decide) (by decide) ⟨by decide, by decide, by decide, by decide⟩
    ⟨[idIndex], [], rfl, by decide⟩).2.2

/-- C5, as stated, fails: with the pair `(unique, "true")` followed by the
pair `(unique, "false")` the unique option requested is `false`, and create
followed by read on a server that stores the index as requested succeeds
with a keys list that does not hold the pair `(unique, "true")`. -/
theorem later_unique_pair_overrides :
    (∃ doc opts, createIndexRequest storingServer
        (config "mydb" "mycoll" uniqueTwiceKeys "idx1") = .ok (doc, opts) ∧
        opts.Unique = some false) ∧
    (resourceDatabaseIndexCreate storingServer
      (config "mydb" "mycoll" uniqueTwiceKeys "idx1") []).out = .ok ∧
    ("unique", "true") ∉ (resourceDatabaseIndexCreate storingServer
      (config "mydb" "mycoll" uniqueTwiceKeys "idx1") []).data.attrs.keys := by
  refine ⟨⟨[("a", Scalar.int 1)], (IndexOptions.empty.SetUnique false).SetName "idx1", ?_, rfl⟩,
    ?_, ?_⟩ <;> decide

/-- C5, amended: a pair whose field equals `unique` ignoring case and whose
value is `true` or `false` adds nothing to the key document `createIndex`
builds; when no later pair of the sequence sets the unique option again,
the unique option requested is that boolean, and a read of the index stored
from that request succeeds with a keys list that holds the pair `unique`
with that value. -/
theorem unique_pair_is_option_and_read_back (env : Env) (cfg data : ResourceData)
    (log : List RemoteCall) (db collection indexName : String) (results : List M) (result : M)
    (doc : D) (opts : IndexOptions) (pre post : List (String × String)) (f v : String)
    (hkeys : cfg.attrs.keys = pre ++ (f, v) :: post)
    (hf : ToLower f = "unique") (hv : v = "true" ∨ v = "false")
    (hreq : createIndexRequest env cfg = .ok (doc, opts))
    (hstored : StoredAs result indexName doc opts)
    (hlist : ReadLists env data log db collection indexName results)
    (honly : OnlyNamed indexName result results) :
    (∃ opts1, keyLoop env.Quote (pre ++ post) [] IndexOptions.empty = .ok (doc, opts1)) ∧
    ((∀ p ∈ post, isUniqueOption p = false) →
      opts.Unique = some (decide (v = "true")) ∧
      (resourceDatabaseIndexRead env data log).out = .ok ∧
      ("unique", v) ∈ (resourceDatabaseIndexRead env data log).data.attrs.keys) := by
  have hlow : ToLower v = v := by
    rcases hv with rfl | rfl <;> decide
  have huniq : isUniqueOption (f, v) = true := by
    unfold isUniqueOption
    simp only [hf, hlow, true_and, decide_eq_true_eq]
    exact hv
  have hinl : isInlineOption (f, v) = true := by
    simp [isInlineOption, huniq]
  obtain ⟨opts0, hk, hu, _⟩ := createIndexRequest_keyLoop env cfg doc opts hreq
  rw [hkeys] at hk
  obtain ⟨_, hr⟩ := keyLoop_result env.Quote _ [] IndexOptions.empty _ hk
  simp only [Prod.mk.injEq] at hr
  refine ⟨keyLoop_without_inline env.Quote pre post _ doc opts0 hinl hk, ?_⟩
  intro hlast
  have hopt : opts.Unique = some (decide (v = "true")) := by
    rw [hu, hr.2, List.foldl_append, List.foldl_cons, foldl_unique_unchanged post _ hlast,
      applyInline_unique _ (f, v) huniq]
    simp [IndexOptions.SetUnique, hlow]
  obtain ⟨hout, hread⟩ :=
    read_stored env data log db collection indexName results result doc opts hlist honly hstored
  refine ⟨hopt, hout, ?_⟩
  rw [hread]
  apply List.mem_append_right
  unfold syntheticPairs
  rw [hopt]
  rcases hv with rfl | rfl <;> simp [SprintfV]

theorem unique_pair_is_option_and_read_back_witness :
    ("unique", "true") ∈
      (resourceDatabaseIndexRead storingServer (created uniqueKeys)
        (createLog uniqueDoc uniqueOpts)).data.attrs.keys :=
  ((unique_pair_is_option_and_read_back storingServer (config "mydb" "mycoll" uniqueKeys "idx1")
    (created uniqueKeys) (createLog uniqueDoc uniqueOpts) "mydb" "mycoll" "idx1"
    [idIndex, storeIndex "idx1" uniqueDoc uniqueOpts] (storeIndex "idx1" uniqueDoc uniqueOpts)
    uniqueDoc uniqueOpts [("entity_type", "1"), ("entity_id", "1"), ("profile_type", "1")] []
    "unique" "true" rfl (by decide) (Or.inl rfl)
    (by decide) (by decide) ⟨by decide, by decide, by decide, by decide⟩
    ⟨[idIndex], [], rfl, by decide⟩).2 (by decide)).2.2

/-- C6: identity parsing inverts identity construction. For all non-empty
`db`, `collection` and `name` free of the delimiter,
`resourceDatabaseIndexParseId` applied to the identity built from them
returns the three with no error; for every string that does not split into
exactly three segments it returns an error together with three empty
strings. -/
theorem parseId_inverts_setId :
    (∀ (env : Env) (db collection name : String), db ≠ "" → collection ≠ "" → name ≠ "" →
      env.sep ∉ db.data → env.sep ∉ collection.data → env.sep ∉ name.data →
      resourceDatabaseIndexParseId env (SetId env [db, collection, name]) =
        (db, collection, name, none)) ∧
    (∀ (env : Env) (id : String), (id.data.splitOn env.sep).length ≠ 3 →
      ∃ err, resourceDatabaseIndexParseId env id = ("", "", "", some err)) := by
  constructor
  · intro env db collection name _ _ _ h1 h2 h3
    unfold resourceDatabaseIndexParseId
    rw [ParseId_SetId env db collection name h1 h2 h3]
    rfl
  · intro env id h
    refine ⟨env.idError id 3, ?_⟩
    unfold resourceDatabaseIndexParseId ParseId
    simp [h]

theorem parseId_inverts_setId_witness :
    resourceDatabaseIndexParseId storingServer (SetId storingServer ["mydb", "mycoll", "idx1"]) =
        ("mydb", "mycoll", "idx1", none) ∧
    ∃ err, resourceDatabaseIndexParseId storingServer "mydb" = ("", "", "", some err) :=
  ⟨parseId_inverts_setId.1 storingServer "mydb" "mycoll" "idx1" (by decide) (by decide)
      (by decide) (by decide) (by decide) (by decide),
    parseId_inverts_setId.2 storingServer "mydb" (by decide)⟩

/-- C7: a specification with a pair `expireAfterSeconds` whose value is no
integer, or with a non-empty `partial_filter_expression` that does not parse
as extended JSON, makes create return an error; the only call issued is the
connection attempt (no index-creation call, no mutating call) and the
resource data, identity included, is left as it was. -/
theorem create_rejects_before_mutating (env : Env) (data : ResourceData) (log : List RemoteCall)
    (h : (∃ v, ("expireAfterSeconds", v) ∈ data.attrs.keys ∧ ∃ e, Atoi v = .error e) ∨
      (data.attrs.partial_filter_expression ≠ "" ∧
        ∃ e, env.UnmarshalExtJSON data.attrs.partial_filter_expression = .error e)) :
    (∃ e, (resourceDatabaseIndexCreate env data log).out = .error e) ∧
    (resourceDatabaseIndexCreate env data log).log = log ++ [.Connect] ∧
    (∀ c ∈ (resourceDatabaseIndexCreate env data log).log, c ∈ log ∨ c.mutating = false) ∧
    (resourceDatabaseIndexCreate env data log).data = data := by
  obtain ⟨e, he⟩ := createIndexRequest_error env data h
  have key : (∃ e, (resourceDatabaseIndexCreate env data log).out = .error e) ∧
      (resourceDatabaseIndexCreate env data log).log = log ++ [.Connect] ∧
      (resourceDatabaseIndexCreate env data log).data = data := by
    unfold resourceDatabaseIndexCreate createIndex
    cases hc : env.MongoClientInit log with
    | some ce => exact ⟨⟨_, rfl⟩, rfl, rfl⟩
    | none => simp [he]
  obtain ⟨h1, h2, h3⟩ := key
  refine ⟨h1, h2, ?_, h3⟩
  intro c hc
  rw [h2] at hc
  rcases List.mem_append.mp hc with hc | hc
  · exact Or.inl hc
  · right
    simp only [List.mem_singleton] at hc
    subst hc
    rfl

theorem create_rejects_before_mutating_witness :
    (resourceDatabaseIndexCreate storingServer
      (config "mydb" "mycoll" [("created_at", "1"), ("expireAfterSeconds", "1h")] "idx1")
      []).log = [] ++ [.Connect] :=
  (create_rejects_before_mutating storingServer
    (config "mydb" "mycoll" [("created_at", "1"), ("expireAfterSeconds", "1h")] "idx1") []
    (Or.inl ⟨"1h", by decide, NumError.ErrSyntax, by decide⟩)).2.1

/-- C8: when the identity parses and the listing succeeds, the read returns
the failure `index does not exist` exactly when no listed descriptor maps
`name` to the index name of the identity, and then leaves the resource data
as it was; the failures of a connection error and of a listing error are
other failures. -/
theorem read_not_found_iff_no_descriptor_named (env : Env) (data : ResourceData)
    (log : List RemoteCall) :
    (∀ db collection indexName results,
      ReadLists env data log db collection indexName results →
      ((resourceDatabaseIndexRead env data log).out = .error "index does not exist" ↔
        ∀ m ∈ results, ¬ hasName indexName m) ∧
      ((resourceDatabaseIndexRead env data log).out = .error "index does not exist" →
        (resourceDatabaseIndexRead env data log).data = data)) ∧
    (∀ e, env.MongoClientInit log = some e →
      (resourceDatabaseIndexRead env data log).out =
        .error ("Error connecting to database : " ++ e ++ " ") ∧
      (resourceDatabaseIndexRead env data log).out ≠ .error "index does not exist") ∧
    (∀ db collection indexName e, env.MongoClientInit log = none →
      resourceDatabaseIndexParseId env data.id = (db, collection, indexName, none) →
      env.CollectionIsNil db collection = false →
      env.ListIndexes (log ++ [.Connect]) db collection = .error e →
      (resourceDatabaseIndexRead env data log).out = .error ("Failed to list indexes: " ++ e) ∧
      (resourceDatabaseIndexRead env data log).out ≠ .error "index does not exist") := by
  refine ⟨?_, ?_, ?_⟩
  · intro db collection indexName results hlist
    rw [read_of_lists env data log db collection indexName results hlist]
    have hiff : (∀ m ∈ results, ¬ hasName indexName m) →
        readOuter env indexName results ⟨false, [], data⟩ = some ⟨false, [], data⟩ :=
      readOuter_noMatch env indexName results _
    by_cases hno : ∀ m ∈ results, ¬ hasName indexName m
    · rw [hiff hno]
      simp only [if_true, true_iff, implies_true, and_true]
      exact hno
    · have hex : ∃ m ∈ results, hasName indexName m := by
        by_contra hc
        apply hno
        intro m hm hn
        exact hc ⟨m, hm, hn⟩
      cases hr : readOuter env indexName results ⟨false, [], data⟩ with
      | none =>
        simp only [reduceCtorEq, false_iff, false_implies, and_true]
        exact hno
      | some st =>
        have hf := readOuter_found env indexName results _ st (Or.inl hex) hr
        simp only [hf, Bool.true_eq_false, if_false, reduceCtorEq, false_iff, false_implies,
          and_true]
        exact hno
  · intro e he
    unfold resourceDatabaseIndexRead
    simp only [he, ne_eq, Outcome.error.injEq, true_and]
    exact fun h => notFound_ne_connect e h.symm
  · intro db collection indexName e hc hp hn hl
    have hid := stateID_of_parse env data db collection indexName hp
    unfold resourceDatabaseIndexRead
    simp only [hc, hid, hp, hn, hl, Bool.false_eq_true, if_false, ne_eq, Outcome.error.injEq,
      true_and]
    exact fun h => notFound_ne_list e h.symm

theorem read_not_found_iff_no_descriptor_named_witness :
    (resourceDatabaseIndexRead storingServer (created compoundKeys) []).out =
      .error "index does not exist" :=
  (((read_not_found_iff_no_descriptor_named storingServer (created compoundKeys) []).1
    "mydb" "mycoll" "idx1" [idIndex] ⟨by decide, by decide, by decide, by decide⟩).1).mpr
    (by decide)

/-- C9, as stated, fails: the recorded and the desired hidden value differ
and the identity parses, yet with no connection the update issues no
collection-modify command, only the connection attempt. -/
theorem update_without_connection_issues_no_command :
    hideIndex.prior.hidden ≠ hideIndex.attrs.hidden ∧
    resourceDatabaseIndexParseId unreachableServer hideIndex.id =
      ("mydb", "mycoll", "idx1", none) ∧
    (resourceDatabaseIndexUpdate unreachableServer hideIndex []).log = [.Connect] := by
  decide

/-- C9, amended: when the desired hidden value equals the recorded one the
update issues no mutating call, whatever else differs between the recorded
and the desired attributes; when they differ, the connection is made and
the identity parses, it issues exactly one mutating call, the
collection-modify command naming the database, collection and index of the
identity and carrying the desired hidden value. -/
theorem update_commands_only_hidden_change (env : Env) (data : ResourceData)
    (log : List RemoteCall) :
    (data.prior.hidden = data.attrs.hidden →
      ∃ calls, (resourceDatabaseIndexUpdate env data log).log = log ++ calls ∧
        ∀ c ∈ calls, c.mutating = false) ∧
    (data.prior.hidden ≠ data.attrs.hidden → env.MongoClientInit log = none →
      ∀ db collection name,
        resourceDatabaseIndexParseId env data.id = (db, collection, name, none) →
        ∃ rest, (resourceDatabaseIndexUpdate env data log).log =
            log ++ .Connect :: .RunCommand db collection name data.attrs.hidden :: rest ∧
          ∀ c ∈ rest, c.mutating = false) := by
  constructor
  · intro h
    rw [update_unchanged env data log h]
    obtain ⟨calls, h1, h2, _⟩ := read_calls_not_mutating env data log
    exact ⟨calls, h1, h2⟩
  · intro h hc db collection name hp
    rw [update_changed env data log db collection name h hc hp]
    cases hr : env.RunCommand (log ++ [.Connect]) db collection name data.attrs.hidden with
    | some err => exact ⟨[], rfl, by simp⟩
    | none =>
      obtain ⟨calls, h1, h2, _⟩ := read_calls_not_mutating env data
        (log ++ [.Connect, .RunCommand db collection name data.attrs.hidden])
      refine ⟨calls, ?_, h2⟩
      simp only [h1, List.append_assoc, List.cons_append, List.nil_append]

theorem update_commands_only_hidden_change_witness :
    (∃ calls, (resourceDatabaseIndexUpdate storingServer (created compoundKeys)
        compoundLog).log = compoundLog ++ calls ∧ ∀ c ∈ calls, c.mutating = false) ∧
    (∃ rest, (resourceDatabaseIndexUpdate storingServer hideIndex compoundLog).log =
        compoundLog ++ .Connect :: .RunCommand "mydb" "mycoll" "idx1" hideIndex.attrs.hidden
          :: rest ∧ ∀ c ∈ rest, c.mutating = false) :=
  ⟨(update_commands_only_hidden_change storingServer (created compoundKeys) compoundLog).1
      (by decide),
    (update_commands_only_hidden_change storingServer hideIndex compoundLog).2
      (by decide) (by decide) "mydb" "mycoll" "idx1" (by decide)⟩

/-- C10: every call that read, update and delete issue addresses the
database, the collection and the index parsed from the stored identity, and
a read or update that succeeds has written these three components to the
`db`, `collection` and `name` attributes, whatever the attributes held. -/
theorem operations_use_parsed_identity (env : Env) (data : ResourceData)
    (log : List RemoteCall) :
    ((∃ calls, (resourceDatabaseIndexRead env data log).log = log ++ calls ∧
        ∀ c ∈ calls,
          c.uses (parsedDb env data) (parsedCollection env data) (parsedName env data)) ∧
      ((resourceDatabaseIndexRead env data log).out = .ok →
        (resourceDatabaseIndexRead env data log).data.attrs.db = parsedDb env data ∧
        (resourceDatabaseIndexRead env data log).data.attrs.collection =
          parsedCollection env data ∧
        (resourceDatabaseIndexRead env data log).data.attrs.name = parsedName env data)) ∧
    ((∃ calls, (resourceDatabaseIndexUpdate env data log).log = log ++ calls ∧
        ∀ c ∈ calls,
          c.uses (parsedDb env data) (parsedCollection env data) (parsedName env data)) ∧
      ((resourceDatabaseIndexUpdate env data log).out = .ok →
        (resourceDatabaseIndexUpdate env data log).data.attrs.db = parsedDb env data ∧
        (resourceDatabaseIndexUpdate env data log).data.attrs.collection =
          parsedCollection env data ∧
        (resourceDatabaseIndexUpdate env data log).data.attrs.name = parsedName env data)) ∧
    (∃ calls, (resourceDatabaseIndexDelete env data log).log = log ++ calls ∧
      ∀ c ∈ calls,
        c.uses (parsedDb env data) (parsedCollection env data) (parsedName env data)) := by
  refine ⟨read_uses_identity env data log, ?_, ?_⟩
  · by_cases h : data.prior.hidden = data.attrs.hidden
    · rw [update_unchanged env data log h]
      exact read_uses_identity env data log
    · unfold resourceDatabaseIndexUpdate ResourceData.HasChangeHidden
      simp only [ne_eq, h, not_false_eq_true, decide_True, if_true]
      cases hc : env.MongoClientInit log with
      | some ce =>
        exact ⟨⟨[.Connect], rfl, by simp [RemoteCall.uses]⟩, by simp⟩
      | none =>
        cases hs : data.StateID with
        | none => exact ⟨⟨[.Connect], rfl, by simp [RemoteCall.uses]⟩, by simp⟩
        | some stateID =>
        have hx := stateID_some data stateID hs
        subst hx
        rcases hp : resourceDatabaseIndexParseId env data.id with ⟨db, coll, name, err⟩
        have e1 : parsedDb env data = db := by simp [parsedDb, hp]
        have e2 : parsedCollection env data = coll := by simp [parsedCollection, hp]
        have e3 : parsedName env data = name := by simp [parsedName, hp]
        simp only [hp]
        cases err with
        | some e => exact ⟨⟨[.Connect], rfl, by simp [RemoteCall.uses]⟩, by simp⟩
        | none =>
          simp only
          cases hr : env.RunCommand (log ++ [.Connect]) db coll name data.attrs.hidden with
          | some err =>
            refine ⟨⟨[.Connect, .RunCommand db coll name data.attrs.hidden], rfl, ?_⟩, by simp⟩
            simp [RemoteCall.uses, e1, e2, e3]
          | none =>
            obtain ⟨⟨calls, h1, h2⟩, h3⟩ := read_uses_identity env data
              (log ++ [.Connect, .RunCommand db coll name data.attrs.hidden])
            refine ⟨⟨[.Connect, .RunCommand db coll name data.attrs.hidden] ++ calls, ?_, ?_⟩, h3⟩
            · simp only [h1, List.append_assoc]
            · intro c hc2
              rcases List.mem_append.mp hc2 with hc2 | hc2
              · simp only [List.mem_cons, List.mem_singleton, List.not_mem_nil, or_false] at hc2
                rcases hc2 with rfl | rfl
                · exact True.intro
                · exact ⟨e1.symm, e2.symm, e3.symm⟩
              · exact h2 c hc2
  · unfold resourceDatabaseIndexDelete dropIndex
    cases hc : env.MongoClientInit log with
    | some ce => exact ⟨[.Connect], rfl, by simp [RemoteCall.uses]⟩
    | none =>
      cases hs : data.StateID with
      | none => exact ⟨[.Connect], rfl, by simp [RemoteCall.uses]⟩
      | some stateID =>
      have hx := stateID_some data stateID hs
      subst hx
      rcases hp : resourceDatabaseIndexParseId env data.id with ⟨db, coll, name, err⟩
      have e1 : parsedDb env data = db := by simp [parsedDb, hp]
      have e2 : parsedCollection env data = coll := by simp [parsedCollection, hp]
      have e3 : parsedName env data = name := by simp [parsedName, hp]
      simp only [hp]
      cases err with
      | some e => exact ⟨[.Connect], rfl, by simp [RemoteCall.uses]⟩
      | none =>
        simp only
        cases hd : env.DropOne (log ++ [.Connect]) db coll name with
        | some err =>
          refine ⟨[.Connect, .DropOne db coll name], by simp, ?_⟩
          simp [RemoteCall.uses, e1, e2, e3]
        | none =>
          refine ⟨[.Connect, .DropOne db coll name], by simp, ?_⟩
          simp [RemoteCall.uses, e1, e2, e3]

/-- C11: the code departs from the claim. Two prior states with the same
identity, read against the same listing, whose matched descriptor has no
`partialFilterExpression`: both reads succeed, and each keeps the
`partial_filter_expression` it had before, so the results differ. -/
theorem read_keeps_stale_partial_filter :
    (created compoundKeys).id = (createdWithFilter compoundKeys).id ∧
    (resourceDatabaseIndexRead storingServer (created compoundKeys) compoundLog).out = .ok ∧
    (resourceDatabaseIndexRead storingServer (createdWithFilter compoundKeys)
      compoundLog).out = .ok ∧
    (resourceDatabaseIndexRead storingServer (created compoundKeys)
      compoundLog).data.attrs.partial_filter_expression = "" ∧
    (resourceDatabaseIndexRead storingServer (createdWithFilter compoundKeys)
      compoundLog).data.attrs.partial_filter_expression = "\x7b\x7d" := by
  decide

/-- C12, as stated, fails: the creation call succeeds and the listing of the
read that follows fails, so create reports a failure while the identity of
the new index is set on the resource. -/
theorem create_failure_after_creation_keeps_identity :
    (resourceDatabaseIndexCreate listingFails
      (config "mydb" "mycoll" compoundKeys "idx1") []).out =
        .error "Failed to list indexes: connection reset" ∧
    (resourceDatabaseIndexCreate listingFails
      (config "mydb" "mycoll" compoundKeys "idx1") []).data.id =
        SetId listingFails ["mydb", "mycoll", "idx1"] ∧
    (resourceDatabaseIndexCreate listingFails
      (config "mydb" "mycoll" compoundKeys "idx1") []).data.id ≠
        (config "mydb" "mycoll" compoundKeys "idx1").id := by
  decide

/-- C12, amended: when create fails before or in the creation call (the
connection fails, `createIndex` rejects the TTL value or the partial filter,
the server rejects the creation), it reports an error and leaves the
resource data, identity included, as it was; once the creation call has
succeeded the identity is the one built from the configured database, the
configured collection and the name the call returned, whether the read that
follows succeeds or fails; a create that succeeds has gone that way. -/
theorem create_sets_identity_once_created (env : Env) (data : ResourceData)
    (log : List RemoteCall) :
    (((∃ e, env.MongoClientInit log = some e) ∨
        (∃ e, createIndexRequest env data = .error e) ∨
        (∃ doc opts e, createIndexRequest env data = .ok (doc, opts) ∧
          env.CreateOne (log ++ [.Connect]) data.attrs.db data.attrs.collection doc opts
            data.attrs.timeout = .error e)) →
      (∃ e, (resourceDatabaseIndexCreate env data log).out = .error e) ∧
      (resourceDatabaseIndexCreate env data log).data = data) ∧
    (∀ doc opts indexName, env.MongoClientInit log = none →
      createIndexRequest env data = .ok (doc, opts) →
      env.CreateOne (log ++ [.Connect]) data.attrs.db data.attrs.collection doc opts
        data.attrs.timeout = .ok indexName →
      (resourceDatabaseIndexCreate env data log).data.id =
        SetId env [data.attrs.db, data.attrs.collection, indexName]) ∧
    ((resourceDatabaseIndexCreate env data log).out = .ok →
      ∃ doc opts indexName, createIndexRequest env data = .ok (doc, opts) ∧
        env.CreateOne (log ++ [.Connect]) data.attrs.db data.attrs.collection doc opts
          data.attrs.timeout = .ok indexName ∧
        (resourceDatabaseIndexCreate env data log).data.id =
          SetId env [data.attrs.db, data.attrs.collection, indexName]) := by
  have created : ∀ doc opts indexName, env.MongoClientInit log = none →
      createIndexRequest env data = .ok (doc, opts) →
      env.CreateOne (log ++ [.Connect]) data.attrs.db data.attrs.collection doc opts
        data.attrs.timeout = .ok indexName →
      (resourceDatabaseIndexCreate env data log).data.id =
        SetId env [data.attrs.db, data.attrs.collection, indexName] := by
    intro doc opts indexName hc hr hcr
    unfold resourceDatabaseIndexCreate createIndex
    simp only [hc, hr, hcr]
    exact (read_frame env _ _).1
  refine ⟨?_, created, ?_⟩
  · intro h
    unfold resourceDatabaseIndexCreate createIndex
    cases hc : env.MongoClientInit log with
    | some ce => exact ⟨⟨_, rfl⟩, rfl⟩
    | none =>
      rcases h with ⟨e, he⟩ | ⟨e, he⟩ | ⟨doc, opts, e, hr, he⟩
      · rw [hc] at he; cases he
      · simp [he]
      · simp [hr, he]
  · intro hok
    cases hc : env.MongoClientInit log with
    | some ce =>
      unfold resourceDatabaseIndexCreate at hok
      simp [hc] at hok
    | none =>
      cases hr : createIndexRequest env data with
      | error e =>
        unfold resourceDatabaseIndexCreate createIndex at hok
        simp [hc, hr] at hok
      | ok r =>
        obtain ⟨doc, opts⟩ := r
        cases hcr : env.CreateOne (log ++ [.Connect]) data.attrs.db data.attrs.collection doc opts
            data.attrs.timeout with
        | error e =>
          unfold resourceDatabaseIndexCreate createIndex at hok
          simp [hc, hr, hcr] at hok
        | ok indexName =>
          exact ⟨doc, opts, indexName, rfl, hcr, created doc opts indexName hc hr hcr⟩

theorem create_sets_identity_once_created_witness :
    (∃ e, (resourceDatabaseIndexCreate unreachableServer
        (config "mydb" "mycoll" compoundKeys "idx1") []).out = .error e) ∧
    (resourceDatabaseIndexCreate unreachableServer
        (config "mydb" "mycoll" compoundKeys "idx1") []).data =
      config "mydb" "mycoll" compoundKeys "idx1" ∧
    (resourceDatabaseIndexCreate storingServer
        (config "mydb" "mycoll" compoundKeys "idx1") []).data.id =
      SetId storingServer ["mydb", "mycoll", "idx1"] :=
  ⟨((create_sets_identity_once_created unreachableServer
      (config "mydb" "mycoll" compoundKeys "idx1") []).1
        (Or.inl ⟨"server selection timeout", by decide⟩)).1,
    ((create_sets_identity_once_created unreachableServer
      (config "mydb" "mycoll" compoundKeys "idx1") []).1
        (Or.inl ⟨"server selection timeout", by decide⟩)).2,
    (create_sets_identity_once_created storingServer
      (config "mydb" "mycoll" compoundKeys "idx1") []).2.1 compoundDoc namedOpts "idx1"
      (by decide) (by decide) (by decide)⟩

/-- C13: with the connection made and the identity parsed, delete issues the
connection and then exactly one call, the drop of the index of the identity
on the collection of the identity; it succeeds exactly when that call
succeeds, and every error of the call, the absence of the index included,
is the failure delete reports. -/
theorem delete_drops_once_and_reports (env : Env) (data : ResourceData) (log : List RemoteCall)
    (db collection name : String)
    (hc : env.MongoClientInit log = none)
    (hp : resourceDatabaseIndexParseId env data.id = (db, collection, name, none)) :
    (resourceDatabaseIndexDelete env data log).log =
      log ++ [.Connect, .DropOne db collection name] ∧
    ((resourceDatabaseIndexDelete env data log).out = .ok ↔
      env.DropOne (log ++ [.Connect]) db collection name = none) ∧
    (∀ e, env.DropOne (log ++ [.Connect]) db collection name = some e →
      (resourceDatabaseIndexDelete env data log).out = .error e) := by
  have hid := stateID_of_parse env data db collection name hp
  unfold resourceDatabaseIndexDelete dropIndex
  simp only [hc, hid, hp]
  cases hd : env.DropOne (log ++ [.Connect]) db collection name with
  | some e => simp
  | none => simp

theorem delete_drops_once_and_reports_witness :
    (resourceDatabaseIndexDelete storingServer (created compoundKeys) compoundLog).out = .ok ∧
    (resourceDatabaseIndexDelete storingServer (created compoundKeys) []).out =
      .error "index not found with name [idx1]" :=
  ⟨((delete_drops_once_and_reports storingServer (created compoundKeys) compoundLog
      "mydb" "mycoll" "idx1" (by decide) (by decide)).2.1).mpr (by decide),
    (delete_drops_once_and_reports storingServer (created compoundKeys) []
      "mydb" "mycoll" "idx1" (by decide) (by decide)).2.2 _ (by decide)⟩

/-- C14: for a stored identity (one that is not empty) that does not parse
into three components, read, update and delete each return an error, issue
no call but the connection attempt (no listing, no drop, no administrative
command) and leave the resource data as it was. -/
theorem malformed_identity_stops_before_calls (env : Env) (data : ResourceData)
    (log : List RemoteCall) (err : String)
    (hid : data.id ≠ "")
    (hp : (resourceDatabaseIndexParseId env data.id).2.2.2 = some err) :
    ((∃ e, (resourceDatabaseIndexRead env data log).out = .error e) ∧
      (resourceDatabaseIndexRead env data log).log = log ++ [.Connect] ∧
      (resourceDatabaseIndexRead env data log).data = data) ∧
    ((∃ e, (resourceDatabaseIndexUpdate env data log).out = .error e) ∧
      (resourceDatabaseIndexUpdate env data log).log = log ++ [.Connect] ∧
      (resourceDatabaseIndexUpdate env data log).data = data) ∧
    ((∃ e, (resourceDatabaseIndexDelete env data log).out = .error e) ∧
      (resourceDatabaseIndexDelete env data log).log = log ++ [.Connect] ∧
      (resourceDatabaseIndexDelete env data log).data = data) := by
  have hs : data.StateID = some data.id := by
    unfold ResourceData.StateID
    rw [if_neg hid]
  rcases hq : resourceDatabaseIndexParseId env data.id with ⟨db, coll, name, e⟩
  rw [hq] at hp
  simp only at hp
  subst hp
  have hread : (∃ e, (resourceDatabaseIndexRead env data log).out = .error e) ∧
      (resourceDatabaseIndexRead env data log).log = log ++ [.Connect] ∧
      (resourceDatabaseIndexRead env data log).data = data := by
    unfold resourceDatabaseIndexRead
    cases hc : env.MongoClientInit log with
    | some ce => exact ⟨⟨_, rfl⟩, rfl, rfl⟩
    | none => simp [hs, hq]
  refine ⟨hread, ?_, ?_⟩
  · unfold resourceDatabaseIndexUpdate
    by_cases hh : data.HasChangeHidden = true
    · rw [if_pos hh]
      cases hc : env.MongoClientInit log with
      | some ce => exact ⟨⟨_, rfl⟩, rfl, rfl⟩
      | none => simp [hs, hq]
    · rw [if_neg hh]
      exact hread
  · unfold resourceDatabaseIndexDelete
    cases hc : env.MongoClientInit log with
    | some ce => exact ⟨⟨_, rfl⟩, rfl, rfl⟩
    | none => simp [hs, hq]

theorem malformed_identity_stops_before_calls_witness :
    (resourceDatabaseIndexRead storingServer
      { created compoundKeys with id := "mydb" } compoundLog).log = compoundLog ++ [.Connect] :=
  (malformed_identity_stops_before_calls storingServer
    { created compoundKeys with id := "mydb" } compoundLog "unexpected format of ID: mydb"
    (by decide) (by decide)).1.2.1

/-- C17, as stated, fails: the pair `(unique, "TRUE")` is recorded as the
unique option and kept out of the key document although its value is not
the literal `true` or `false`. -/
theorem upper_case_value_sets_unique :
    keyStep (fun s => s) [("a", Scalar.int 1)] IndexOptions.empty "unique" "TRUE" =
      .ok ([("a", Scalar.int 1)], IndexOptions.empty.SetUnique true) ∧
    createIndexRequest storingServer (config "mydb" "mycoll" upperUniqueKeys "idx1") =
      .ok ([("a", Scalar.int 1)], (IndexOptions.empty.SetUnique true).SetName "idx1") := by
  decide

/-- C17, amended: a pair whose field equals `unique` ignoring case is
recorded as the unique option and kept out of the key document exactly when
its value equals `true` or `false` ignoring case, and the option recorded is
whether the value equals `true` ignoring case; with any other value the pair
is appended to the key document through the typing ladder and the options
are left as they were. -/
theorem unique_pair_value_ignores_case (q : String → String) (ks : D) (os : IndexOptions)
    (f v : String) (hf : ToLower f = "unique") :
    ((ToLower v = "true" ∨ ToLower v = "false") →
      keyStep q ks os f v = .ok (ks, os.SetUnique (decide (ToLower v = "true")))) ∧
    (¬ (ToLower v = "true" ∨ ToLower v = "false") →
      keyStep q ks os f v = .ok (ks ++ [(f, typedValue v)], os)) := by
  have hne := unique_field_not_expire f hf
  have hm : malformedTTL (f, v) = false := by simp [malformedTTL, hne]
  have ht : isTTLOption (f, v) = false := by simp [isTTLOption, hne]
  rw [keyStep_ok q ks os f v hm]
  constructor
  · intro hv
    have hu : isUniqueOption (f, v) = true := by simp [isUniqueOption, hf, hv]
    simp [isInlineOption, hu, applyInline, ht]
  · intro hv
    have hu : isUniqueOption (f, v) = false := by simp [isUniqueOption, hf, hv]
    simp [isInlineOption, hu, applyInline, ht]

theorem unique_pair_value_ignores_case_witness :
    keyStep (fun s => s) [] IndexOptions.empty "Unique" "False" =
        .ok ([], IndexOptions.empty.SetUnique (decide (ToLower "False" = "true"))) ∧
    keyStep (fun s => s) [] IndexOptions.empty "unique" "yes" =
        .ok ([] ++ [("unique", typedValue "yes")], IndexOptions.empty) :=
  ⟨(unique_pair_value_ignores_case (fun s => s) [] IndexOptions.empty "Unique" "False"
      (by decide)).1 (by decide),
    (unique_pair_value_ignores_case (fun s => s) [] IndexOptions.empty "unique" "yes"
      (by decide)).2 (by decide)⟩

/-- C18: a pair named `expireAfterSeconds` whose value parses as a negative
integer does not end `createIndex` and leaves the options as they were; it
is appended to the key document under the name `expireAfterSeconds`, typed
by the ladder: the integer -1 for `"-1"`, the raw string otherwise. -/
theorem negative_ttl_becomes_key (q : String → String) (ks : D) (os : IndexOptions)
    (v : String) (n : Int) (hv : Atoi v = .ok n) (hn : n < 0) :
    keyStep q ks os "expireAfterSeconds" v =
      .ok (ks ++ [("expireAfterSeconds", typedValue v)], os) ∧
    typedValue v = (if v = "-1" then Scalar.int (-1) else Scalar.str v) := by
  have hm : malformedTTL ("expireAfterSeconds", v) = false := by simp [malformedTTL, hv]
  have ht : isTTLOption ("expireAfterSeconds", v) = false := by
    simp [isTTLOption, hv]; omega
  have hu : isUniqueOption ("expireAfterSeconds", v) = false := by
    simp [isUniqueOption, lower_expire_ne_unique]
  constructor
  · rw [keyStep_ok q ks os _ v hm]
    simp [isInlineOption, ht, hu, applyInline]
  · have h1 : v ≠ "1" := by
      intro he; subst he
      have : Atoi "1" = .ok 1 := by decide
      rw [this] at hv
      cases hv; omega
    have h3 : v ≠ "true" := by
      intro he; subst he
      have : Atoi "true" = .error .ErrSyntax := by decide
      rw [this] at hv
      cases hv
    have h4 : v ≠ "false" := by
      intro he; subst he
      have : Atoi "false" = .error .ErrSyntax := by decide
      rw [this] at hv
      cases hv
    unfold typedValue
    simp [h1, h3, h4]

theorem negative_ttl_becomes_key_witness :
    keyStep (fun s => s) [] IndexOptions.empty "expireAfterSeconds" "-5" =
      .ok ([] ++ [("expireAfterSeconds", typedValue "-5")], IndexOptions.empty) :=
  (negative_ttl_becomes_key (fun s => s) [] IndexOptions.empty "-5" (-5) (by decide)
    (by decide)).1

/-- C16: the code departs from the claim. The value `4294967296` parses as
that integer and is recorded as the TTL option 0; the value `2147483648` is
recorded as -2147483648. -/
theorem wide_ttl_is_truncated :
    Atoi "4294967296" = .ok 4294967296 ∧
    createIndexRequest storingServer (config "mydb" "mycoll" wideTTLKeys "idx1") =
      .ok ([("created_at", Scalar.int 1)],
        (IndexOptions.empty.SetExpireAfterSeconds 0).SetName "idx1") ∧
    Atoi "2147483648" = .ok 2147483648 ∧
    keyStep (fun s => s) [] IndexOptions.empty "expireAfterSeconds" "2147483648" =
      .ok ([], IndexOptions.empty.SetExpireAfterSeconds (-2147483648)) := by
  decide

/-- C19: after a successful read that matched the one descriptor carrying
the index name, the hidden attribute is the boolean under `hidden` of that
descriptor, and `false` when the descriptor has no such field; the partial
filter of the descriptor, serialized, is the `partial_filter_expression`
attribute; the keys list is read from the key document and the `unique` and
`expireAfterSeconds` fields alone, so neither of the two appears in it. -/
theorem read_writes_hidden_and_filter (env : Env) (data : ResourceData) (log : List RemoteCall)
    (db collection indexName : String) (results : List M) (result : M)
    (hlist : ReadLists env data log db collection indexName results)
    (honly : OnlyNamed indexName result results)
    (hname : mapGet result "name" = some (Any.scalar (Scalar.str indexName)))
    (hok : (resourceDatabaseIndexRead env data log).out = .ok) :
    (∀ b, mapGet result "hidden" = some (Any.scalar (Scalar.bool b)) →
      (resourceDatabaseIndexRead env data log).data.attrs.hidden = b) ∧
    (mapGet result "hidden" = none →
      (resourceDatabaseIndexRead env data log).data.attrs.hidden = false) ∧
    (∀ pfe text, mapGet result "partialFilterExpression" = some pfe →
      env.MarshalExtJSON pfe = .ok text →
      (resourceDatabaseIndexRead env data log).data.attrs.partial_filter_expression = text) ∧
    (∃ doc, mapGet result "key" = some (Any.d doc) ∧
      (resourceDatabaseIndexRead env data log).data.attrs.keys =
        keysOfDescriptor doc (mapGet result "unique") (mapGet result "expireAfterSeconds")) := by
  have hread := read_of_lists env data log db collection indexName results hlist
  rw [readOuter_onlyNamed env indexName result results ⟨false, [], data⟩ rfl hname honly]
    at hread
  rw [hread] at hok ⊢
  cases hkey : mapGet result "key" with
  | none => simp [readMatch, hkey] at hok
  | some kv =>
    cases kv with
    | scalar s => simp [readMatch, hkey] at hok
    | other t => simp [readMatch, hkey] at hok
    | d doc =>
      simp only [readMatch, hkey, Bool.true_eq_false, if_false]
      refine ⟨?_, ?_, ?_, doc, rfl, ?_⟩
      · intro b hb
        simp [hb, ResourceData.SetHidden]
      · intro hb
        simp [hb, ResourceData.SetHidden]
      · intro pfe text hp hm
        simp only [hp, hm]
        cases hh : mapGet result "hidden" with
        | none => simp [ResourceData.SetHidden, ResourceData.SetPartialFilterExpression]
        | some hv =>
          cases hv with
          | scalar s =>
            cases s <;> simp [ResourceData.SetHidden, ResourceData.SetPartialFilterExpression]
          | d _ => simp [ResourceData.SetPartialFilterExpression]
          | other _ => simp [ResourceData.SetPartialFilterExpression]
      · unfold keysOfDescriptor
        cases mapGet result "unique" <;> cases mapGet result "expireAfterSeconds" <;> simp



theorem read_writes_hidden_and_filter_witness :
    (resourceDatabaseIndexRead storingServer (created compoundKeys) hiddenLog).data.attrs.hidden =
      true :=
  (read_writes_hidden_and_filter storingServer (created compoundKeys) hiddenLog
    "mydb" "mycoll" "idx1"
    [idIndex, storeIndex "idx1" compoundDoc (namedOpts.SetHidden true)]
    (storeIndex "idx1" compoundDoc (namedOpts.SetHidden true))
    ⟨by decide, by decide, by decide, by decide⟩
    ⟨[idIndex], [], rfl, by decide⟩ (by decide) (by decide)).1 true (by decide)

/-- C15: for a key sequence all of whose pairs are extracted as inline
options (the pair `(unique, "true")` alone is one) the key loop of
`createIndex` ends with an empty key document, and against a server that
rejects an empty key document create fails: it returns an error, sets no
identity and leaves the resource data as it was, and the only creation call
it issues is the one for the empty key document, which the server answers
with the error, so that no index is created. -/
theorem create_with_only_inline_pairs_fails (env : Env) (data : ResourceData)
    (log : List RemoteCall)
    (h : ∀ p ∈ data.attrs.keys, isInlineOption p = true)
    (hs : RejectsEmptyKeys env) :
    keyLoop env.Quote data.attrs.keys [] IndexOptions.empty =
      .ok ([], data.attrs.keys.foldl applyInline IndexOptions.empty) ∧
    (∃ e, (resourceDatabaseIndexCreate env data log).out = .error e) ∧
    (resourceDatabaseIndexCreate env data log).data = data ∧
    ((resourceDatabaseIndexCreate env data log).log = log ++ [.Connect] ∨
      ∃ opts e,
        (resourceDatabaseIndexCreate env data log).log =
          log ++ [.Connect,
            .CreateOne data.attrs.db data.attrs.collection [] opts data.attrs.timeout] ∧
        env.CreateOne (log ++ [.Connect]) data.attrs.db data.attrs.collection [] opts
          data.attrs.timeout = .error e ∧
        (resourceDatabaseIndexCreate env data log).out =
          .error ("Could not create the index : " ++ e ++ " ")) := by
  have hloop : keyLoop env.Quote data.attrs.keys [] IndexOptions.empty =
      .ok ([], data.attrs.keys.foldl applyInline IndexOptions.empty) := by
    rw [keyLoop_ok env.Quote data.attrs.keys [] IndexOptions.empty
      (fun p hp => inline_not_malformed p (h p hp)), retained_of_all_inline _ h]
    rfl
  refine ⟨hloop, ?_⟩
  unfold resourceDatabaseIndexCreate createIndex
  cases hc : env.MongoClientInit log with
  | some ce => exact ⟨⟨_, rfl⟩, rfl, Or.inl rfl⟩
  | none =>
    cases hreq : createIndexRequest env data with
    | error e => exact ⟨⟨_, rfl⟩, rfl, Or.inl rfl⟩
    | ok r =>
      obtain ⟨doc, opts⟩ := r
      have hd := createIndexRequest_all_inline env data doc opts h hreq
      subst hd
      obtain ⟨e, he⟩ := hs (log ++ [.Connect]) data.attrs.db data.attrs.collection opts
        data.attrs.timeout
      refine ⟨?_, ?_, Or.inr ⟨opts, e, ?_, he, ?_⟩⟩ <;> simp [he]

theorem create_with_only_inline_pairs_fails_witness :
    (∃ e, (resourceDatabaseIndexCreate storingServer
      (config "mydb" "mycoll" uniqueOnlyKeys "idx1") []).out = .error e) ∧
    (resourceDatabaseIndexCreate storingServer
      (config "mydb" "mycoll" uniqueOnlyKeys "idx1") []).data =
        config "mydb" "mycoll" uniqueOnlyKeys "idx1" :=
  ⟨(create_with_only_inline_pairs_fails storingServer
      (config "mydb" "mycoll" uniqueOnlyKeys "idx1") [] (by decide)
      (fun _ _ _ _ _ => ⟨"Index keys cannot be empty.", rfl⟩)).2.1,
    (create_with_only_inline_pairs_fails storingServer
      (config "mydb" "mycoll" uniqueOnlyKeys "idx1") [] (by decide)
      (fun _ _ _ _ _ => ⟨"Index keys cannot be empty.", rfl⟩)).2.2.1⟩

/-- C20: for a listing that names the index once, a successful read runs the
body of the scan on the first descriptor of that name and on no other: the
scan of the whole listing is the body on that descriptor, and the keys
attribute is built from it alone (its key pairs in order, then its `unique`
pair if present, then its `expireAfterSeconds` pair if present), whatever
the descriptors before and after it hold. -/
theorem read_keys_from_first_match (env : Env) (data : ResourceData) (log : List RemoteCall)
    (db collection indexName : String) (pre post : List M) (result : M)
    (hlist : ReadLists env data log db collection indexName (pre ++ result :: post))
    (hfirst : ∀ m ∈ pre, ¬ hasName indexName m)
    (hname : mapGet result "name" = some (Any.scalar (Scalar.str indexName)))
    (honce : ∀ m ∈ post, ¬ hasName indexName m)
    (hok : (resourceDatabaseIndexRead env data log).out = .ok) :
    readOuter env indexName (pre ++ result :: post) ⟨false, [], data⟩ =
      readMatch env result ⟨false, [], data⟩ ∧
    ∃ doc, mapGet result "key" = some (Any.d doc) ∧
      (resourceDatabaseIndexRead env data log).data.attrs.keys =
        keysOfDescriptor doc (mapGet result "unique") (mapGet result "expireAfterSeconds") := by
  have honly : OnlyNamed indexName result (pre ++ result :: post) := by
    refine ⟨pre, post, rfl, ?_⟩
    intro m hm
    rcases List.mem_append.mp hm with hm | hm
    · exact hfirst m hm
    · exact honce m hm
  have hscan := readOuter_onlyNamed env indexName result (pre ++ result :: post)
    ⟨false, [], data⟩ rfl hname honly
  refine ⟨hscan, ?_⟩
  have hread := read_of_lists env data log db collection indexName _ hlist
  rw [hscan] at hread
  rw [hread] at hok ⊢
  cases hkey : mapGet result "key" with
  | none => simp [readMatch, hkey] at hok
  | some kv =>
    cases kv with
    | scalar s => simp [readMatch, hkey] at hok
    | other t => simp [readMatch, hkey] at hok
    | d doc =>
      refine ⟨doc, rfl, ?_⟩
      simp only [readMatch, hkey, Bool.true_eq_false, if_false]
      unfold keysOfDescriptor
      cases mapGet result "unique" <;> cases mapGet result "expireAfterSeconds" <;> simp

theorem read_keys_from_first_match_witness :
    (resourceDatabaseIndexRead storingServer (created compoundKeys) twoIndexLog).data.attrs.keys =
      keysOfDescriptor compoundDoc none none :=
  let h := read_keys_from_first_match storingServer (created compoundKeys) twoIndexLog
    "mydb" "mycoll" "idx1" [idIndex]
    [storeIndex "idx2" [("b", Scalar.int 1)] (IndexOptions.empty.SetName "idx2")]
    (storeIndex "idx1" compoundDoc namedOpts)
    ⟨by decide, by decide, by decide, by decide⟩ (by decide) (by decide) (by decide) (by decide)
  by
    obtain ⟨_, doc, hdoc, hkeys⟩ := h
    have hd : doc = compoundDoc := by
      have : mapGet (storeIndex "idx1" compoundDoc namedOpts) "key" = some (Any.d compoundDoc) := by
        decide
      rw [this] at hdoc
      cases hdoc
      rfl
    rw [hkeys, hd]
    rfl

end Mongodb
